import Mathlib

/-!
Shallow embedding of the CoopThreads cooperative threading core
(`src/coop_threads.c`) and verification of its specification.

The scheduler state (`coop_sched_ctx_t`) and per-thread contexts
(`coop_thrd_ctx_t`) are translated into plain Lean structures; the C pool
size `CONFIG_MAX_THREADS` becomes a parameter `N`, and the pool itself a
function `Fin N → coop_thrd_ctx_t`.  The C `unsigned` type is modelled as
`Nat` with explicit `% 2 ^ 32` where wrap-around matters (the `cur_thrd`
sentinel `(unsigned)-1` and its increment).  `jmp_buf` saved contexts are
opaque to the scheduler logic and are modelled by `Nat` snapshots (zeroed
by `memset`).  All optional features (`CONFIG_OPT_IDLE`, `CONFIG_OPT_WAIT`,
`CONFIG_OPT_YIELD_AFTER`) are compiled in.

The clock abstraction (`coop_tick_t`, `COOP_MAX_TICK`, `COOP_IS_TICK_OVER`)
lives in the repository header `coop_threads.h`, which is not part of
`src/`; those definitions are modelled from the specification text and are
marked as such below.
-/

namespace CoopThreads

/-- Width modulus of the C `unsigned` type (assumed 32-bit). -/
def UINT_MOD : Nat := 2 ^ 32

/-- `(unsigned)-1`, the `cur_thrd` sentinel installed by `_sched_init`. -/
def UINT_SENTINEL : Nat := UINT_MOD - 1

/-- Modelled from the spec: `coop_tick_t` is a fixed-width unsigned
"monotonic tick counter; may wrap" (spec §6).  A 32-bit width is fixed;
the development depends on the width only through this modulus. -/
def TICK_MOD : Nat := 2 ^ 32

/-- Modelled from the spec: `COOP_MAX_TICK`, "the maximum representable
tick value" (spec §6). -/
def COOP_MAX_TICK : Nat := TICK_MOD - 1

/-- The unsigned tick difference `a - b` in `coop_tick_t` arithmetic. -/
def tick_sub (a b : Nat) : Nat :=
  (a % TICK_MOD + (TICK_MOD - b % TICK_MOD)) % TICK_MOD

/-- Modelled from the spec: `is_tick_over(ref, limit)`, the "wrap-safe
past-comparison, true iff `limit` is not in the future relative to `ref`
within the half-range window" (spec §6).  Computed as the unsigned
difference `ref - limit` lying in the lower half of the tick range. -/
def COOP_IS_TICK_OVER (t tick_to : Nat) : Bool :=
  tick_sub t tick_to < TICK_MOD / 2

/-- Thread states (`coop_thrd_state_t`); `EMPTY` is the all-zero state. -/
inductive coop_thrd_state_t where
  | EMPTY
  | HOLE
  | NEW
  | RUN
  | IDLE
  | WAIT
deriving DecidableEq, Repr

/-- `_IS_IDLE` (with `CONFIG_OPT_IDLE` enabled). -/
def _IS_IDLE (st : coop_thrd_state_t) : Bool := st == .IDLE

/-- `_IS_WAIT` (with `CONFIG_OPT_WAIT` enabled). -/
def _IS_WAIT (st : coop_thrd_state_t) : Bool := st == .WAIT

/-- `_IS_STARTED`: "started thread is an active thread with allocated
stack (therefore not NEW)". -/
def _IS_STARTED (st : coop_thrd_state_t) : Bool :=
  st == .RUN || _IS_IDLE st || _IS_WAIT st

/-- Thread context (`coop_thrd_ctx_t`).  The entry routine `proc` and the
display `name` are opaque pointers, modelled as `Option Nat` (`none` for
`NULL`); `arg` is an opaque word.  The two `jmp_buf` members are opaque
snapshots modelled as `Nat`.  Default field values give the all-zero
(`memset`) record. -/
structure coop_thrd_ctx_t where
  proc : Option Nat := none
  name : Option Nat := none
  stack_sz : Nat := 0
  arg : Nat := 0
  state : coop_thrd_state_t := .EMPTY
  idle_to : Nat := 0
  switch_tick : Nat := 0
  sem_id : Int := 0
  wait_to : Nat := 0
  wait_flgs_notif : Bool := false
  wait_flgs_inf : Bool := false
  depth : Nat := 0
  exe_ctx : Nat := 0
  entry_ctx : Nat := 0
deriving DecidableEq, Repr

/-- Scheduler context (`coop_sched_ctx_t`); the pool bound
`CONFIG_MAX_THREADS` is the parameter `N`. -/
structure coop_sched_ctx_t (N : Nat) where
  cur_thrd : Nat
  busy_n : Nat
  hole_n : Nat
  idle_n : Nat
  depth : Nat
  exe_ctx : Nat
  thrds : Fin N → coop_thrd_ctx_t

instance (N : Nat) : DecidableEq (coop_sched_ctx_t N) := fun a b =>
  decidable_of_iff
    (a.cur_thrd = b.cur_thrd ∧ a.busy_n = b.busy_n ∧ a.hole_n = b.hole_n ∧
     a.idle_n = b.idle_n ∧ a.depth = b.depth ∧ a.exe_ctx = b.exe_ctx ∧
     a.thrds = b.thrds)
    (by cases a; cases b; simp)

/-- The all-zero scheduler state (the C static initializer `sched = {}`). -/
def zero_sched (N : Nat) : coop_sched_ctx_t N :=
  { cur_thrd := 0, busy_n := 0, hole_n := 0, idle_n := 0, depth := 0,
    exe_ctx := 0, thrds := fun _ => {} }

/-- Scheduler state at the start of a session: all-zero with the
`cur_thrd` sentinel, as established by `_sched_init`. -/
def init_sched (N : Nat) : coop_sched_ctx_t N :=
  { zero_sched N with cur_thrd := UINT_SENTINEL }

/-- The scheduler singleton together with the `static bool inited` flag of
`_sched_init`. -/
structure coop_sched_global_t (N : Nat) where
  inited : Bool
  sched : coop_sched_ctx_t N
deriving DecidableEq

/-- The C process start state: `inited = false`, `sched = {}` (all-zero). -/
def start_global (N : Nat) : coop_sched_global_t N :=
  { inited := false, sched := zero_sched N }

/-- `_sched_init`: on first use or when forced, `memset` the scheduler
state to zero and set the `cur_thrd` sentinel. -/
def _sched_init (N : Nat) (force : Bool) (g : coop_sched_global_t N) :
    coop_sched_global_t N :=
  if !g.inited || force then { inited := true, sched := init_sched N }
  else g

/-- Modelled from the spec: the `coop_error_t` result taxonomy of
`coop_threads.h` — "Invalid-argument … Capacity-exceeded … Success"
(spec §7). -/
inductive coop_error_t where
  | COOP_SUCCESS
  | COOP_INV_ARG
  | COOP_ERR_LIMIT
deriving DecidableEq, Repr

/-- The body of the reservation loop of `coop_sched_thread` for a chosen
`EMPTY` slot `i`: initialize it to `NEW`, `depth = 0`, zero both saved
contexts, substitute the default stack size for a zero request and count
the slot as busy.  Fields not assigned by the C code keep their previous
values. -/
def thread_init_slot {N : Nat} (proc name : Option Nat)
    (stack_sz arg dflt_stack_sz : Nat) (i : Fin N) (s : coop_sched_ctx_t N) :
    coop_sched_ctx_t N :=
  { s with
    thrds := Function.update s.thrds i
      { s.thrds i with
        proc := proc, name := name,
        stack_sz := if stack_sz = 0 then dflt_stack_sz else stack_sz,
        arg := arg, state := .NEW, depth := 0,
        exe_ctx := 0, entry_ctx := 0 },
    busy_n := s.busy_n + 1 }

/-- The slot-reservation loop of `coop_sched_thread`: scan indices in
order, initialize the first `EMPTY` slot and stop (`break`). -/
def sched_thread_loop (N : Nat) (proc name : Option Nat)
    (stack_sz arg dflt_stack_sz : Nat) :
    List (Fin N) → coop_sched_ctx_t N → coop_sched_ctx_t N
  | [], s => s
  | i :: rest, s =>
    if (s.thrds i).state = .EMPTY then
      thread_init_slot proc name stack_sz arg dflt_stack_sz i s
    else sched_thread_loop N proc name stack_sz arg dflt_stack_sz rest s

/-- `coop_sched_thread`: argument check, capacity check, lazy
`_sched_init(false)`, then reservation of the first `EMPTY` slot.
`dflt_stack_sz` is the compile-time `CONFIG_DEFAULT_STACK_SIZE`. -/
def coop_sched_thread (N : Nat) (dflt_stack_sz : Nat)
    (proc name : Option Nat) (stack_sz arg : Nat)
    (g : coop_sched_global_t N) : coop_error_t × coop_sched_global_t N :=
  if proc = none then (.COOP_INV_ARG, g)
  else if N ≤ g.sched.busy_n then (.COOP_ERR_LIMIT, g)
  else
    let g1 := _sched_init N false g
    (.COOP_SUCCESS,
      { g1 with
        sched := sched_thread_loop N proc name stack_sz arg dflt_stack_sz
          (List.finRange N) g1.sched })

/-- Number of slots of `s` whose context satisfies `p`. -/
def count_slots {N : Nat} (s : coop_sched_ctx_t N)
    (p : coop_thrd_ctx_t → Bool) : Nat :=
  (Finset.univ.filter (fun i => p (s.thrds i) = true)).card

/-- The counter part of the scheduler invariant: `busy_n`, `hole_n` and
`idle_n` are the cardinalities of their state subsets (spec P2). -/
def counters_ok {N : Nat} (s : coop_sched_ctx_t N) : Prop :=
  s.busy_n = count_slots s (fun t => !(t.state == .EMPTY)) ∧
  s.hole_n = count_slots s (fun t => t.state == .HOLE) ∧
  s.idle_n = count_slots s (fun t => t.state == .IDLE)

instance {N : Nat} (s : coop_sched_ctx_t N) : Decidable (counters_ok s) := by
  unfold counters_ok; infer_instance

/-- The state `coop_sched_service` leaves behind: its `while` loop runs
only while `busy_n > 0`, and once `busy_n` reaches `0` the function calls
`_sched_init(true)` (force reinitialization) and returns. -/
def coop_sched_service_exit (N : Nat) (g : coop_sched_global_t N) :
    coop_sched_global_t N :=
  _sched_init N true g

/-- The effect of waking a waiting slot `i` (`coop_notify` /
`coop_notify_all` loop body): set its notified flag and make it `RUN`. -/
def wake_slot {N : Nat} (i : Fin N) (s : coop_sched_ctx_t N) :
    coop_sched_ctx_t N :=
  { s with
    thrds := Function.update s.thrds i
      { s.thrds i with wait_flgs_notif := true, state := .RUN } }

/-- The scan loop of `coop_notify`: wake the first matching `WAIT` slot
and stop (`break`). -/
def notify_loop (N : Nat) (sem : Int) :
    List (Fin N) → coop_sched_ctx_t N → coop_sched_ctx_t N
  | [], s => s
  | i :: rest, s =>
    if (s.thrds i).state = .WAIT ∧ (s.thrds i).sem_id = sem then wake_slot i s
    else notify_loop N sem rest s

/-- `coop_notify`. -/
def coop_notify (N : Nat) (sem : Int) (s : coop_sched_ctx_t N) :
    coop_sched_ctx_t N :=
  notify_loop N sem (List.finRange N) s

/-- The scan loop of `coop_notify_all`: wake every matching `WAIT` slot. -/
def notify_all_loop (N : Nat) (sem : Int) :
    List (Fin N) → coop_sched_ctx_t N → coop_sched_ctx_t N
  | [], s => s
  | i :: rest, s =>
    notify_all_loop N sem rest
      (if (s.thrds i).state = .WAIT ∧ (s.thrds i).sem_id = sem then wake_slot i s
       else s)

/-- `coop_notify_all`. -/
def coop_notify_all (N : Nat) (sem : Int) (s : coop_sched_ctx_t N) :
    coop_sched_ctx_t N :=
  notify_all_loop N sem (List.finRange N) s

/-- Set the state of slot `i`.  This is the whole effect of `_yield` on
the modelled scheduler state: both its branches (`NEW` and started) store
`new_state` into the slot, the rest of `_yield` being the
`setjmp`/`alloca`/`longjmp` control transfer.  The dispatcher's
`WAIT → RUN` and `IDLE → RUN` promotions perform the same mutation. -/
def set_thrd_state {N : Nat} (i : Fin N) (st : coop_thrd_state_t)
    (s : coop_sched_ctx_t N) : coop_sched_ctx_t N :=
  { s with
    thrds := Function.update s.thrds i { s.thrds i with state := st } }

/-- The entry half of `coop_wait` for the current slot `cur`: record
`sem_id`, clear the notified flag, set the timeout fields (`timeout = 0`
means infinite wait), then `_yield(WAIT)`.  `now` is the `coop_tick_cb()`
value. -/
def coop_wait_entry {N : Nat} (sem : Int) (timeout now : Nat) (cur : Fin N)
    (s : coop_sched_ctx_t N) : coop_sched_ctx_t N :=
  let s1 : coop_sched_ctx_t N :=
    { s with
      thrds := Function.update s.thrds cur
        (if timeout ≠ 0 then
          { s.thrds cur with
            sem_id := sem, wait_flgs_notif := false,
            wait_to := (now + timeout) % TICK_MOD, wait_flgs_inf := false }
        else
          { s.thrds cur with
            sem_id := sem, wait_flgs_notif := false,
            wait_to := 0, wait_flgs_inf := true }) }
  set_thrd_state cur .WAIT s1

/-- The value `coop_wait` returns upon resumption: whether the notified
flag of the calling slot is set. -/
def coop_wait_ret {N : Nat} (cur : Fin N) (s : coop_sched_ctx_t N) : Bool :=
  (s.thrds cur).wait_flgs_notif

/-- The `WAIT` dispatch case of `coop_sched_service` for the current slot
`cur`: an infinite or not-yet-timed-out waiter is skipped; otherwise the
slot is promoted `WAIT → RUN` (the notified flag is not touched).  `now`
is the `coop_tick_cb()` value. -/
def sched_wait_case {N : Nat} (now : Nat) (cur : Fin N)
    (s : coop_sched_ctx_t N) : coop_sched_ctx_t N :=
  if (s.thrds cur).wait_flgs_inf = true ∨
      ¬COOP_IS_TICK_OVER now (s.thrds cur).wait_to = true then s
  else set_thrd_state cur .RUN s

/-- `coop_yield_after(after)`: when the current tick (`now`, the
`coop_tick_cb()` value) is over the tick `after`, yield via `_yield(RUN)`
and return `true`; otherwise return `false` without touching anything. -/
def coop_yield_after {N : Nat} (after now : Nat) (cur : Fin N)
    (s : coop_sched_ctx_t N) : Bool × coop_sched_ctx_t N :=
  if COOP_IS_TICK_OVER now after then (true, set_thrd_state cur .RUN s)
  else (false, s)

/-- The claim's reading of `yield_after`: the yield decision compares the
current tick against `limit_tick` taken relative to the thread's last
resume tick `switch_tick`. -/
def yield_after_claim {N : Nat} (limit now : Nat) (cur : Fin N)
    (s : coop_sched_ctx_t N) : Bool :=
  COOP_IS_TICK_OVER now (((s.thrds cur).switch_tick + limit) % TICK_MOD)

/-- `coop_thread_name` reads `sched.thrds[sched.cur_thrd].name` with no
bounds check; the embedding returns `none` when the index is outside the
pool (the C code's out-of-range access branch). -/
def coop_thread_name {N : Nat} (s : coop_sched_ctx_t N) :
    Option (Option Nat) :=
  if h : s.cur_thrd < N then some ((s.thrds ⟨s.cur_thrd, h⟩).name) else none

/-- The loop-entry advance of `coop_sched_service`:
`sched.cur_thrd = (sched.cur_thrd + 1) % CONFIG_MAX_THREADS` in C
`unsigned` arithmetic, so the `(unsigned)-1` sentinel advances to
slot 0. -/
def sched_advance {N : Nat} (s : coop_sched_ctx_t N) : coop_sched_ctx_t N :=
  { s with cur_thrd := (s.cur_thrd + 1) % UINT_MOD % N }

/-- Slot index reached `k + 1` loop-entry advances after `cur_thrd = c`. -/
def cyc_slot (N c k : Nat) : Nat := ((c + 1) % UINT_MOD % N + k) % N

/-- Iterated dispatch scan of the service loop: advance `cur_thrd` and
return the first eligible slot, skipping ineligible slots, within at most
`fuel` loop iterations. -/
def dispatch_first_aux (N : Nat) (elig : Fin N → Bool) :
    Nat → Nat → Option (Fin N)
  | _, 0 => none
  | c, fuel+1 =>
    if h : (c + 1) % UINT_MOD % N < N then
      if elig ⟨(c + 1) % UINT_MOD % N, h⟩ then some ⟨(c + 1) % UINT_MOD % N, h⟩
      else dispatch_first_aux N elig ((c + 1) % UINT_MOD % N) fuel
    else none

/-- First slot the service loop dispatches from state `s`, for a given
per-slot eligibility predicate. -/
def dispatch_first (N : Nat) (elig : Fin N → Bool)
    (s : coop_sched_ctx_t N) : Option (Fin N) :=
  dispatch_first_aux N elig s.cur_thrd N

/-- The `NEW` dispatch case of `coop_sched_service` up to entering the
thread routine: grow the main stack (`sched.depth++`), give the slot the
new depth and stamp `switch_tick` (the `entry_ctx` snapshot is opaque).
`now` is the `coop_tick_cb()` value. -/
def sched_enter {N : Nat} (now : Nat) (i : Fin N) (s : coop_sched_ctx_t N) :
    coop_sched_ctx_t N :=
  { s with
    depth := s.depth + 1,
    thrds := Function.update s.thrds i
      { s.thrds i with depth := s.depth + 1, switch_tick := now } }

/-- Executable dispatch simulation for always-ready threads: each
dispatched `NEW` thread enters and immediately first-yields back as `RUN`
(`coop_yield`), each dispatched `RUN` thread is resumed and yields again;
the returned list records the order in which threads are resumed. -/
def ready_run (N : Nat) : Nat → coop_sched_ctx_t N → List Nat
  | 0, _ => []
  | steps+1, s =>
    let s1 := sched_advance s
    if h : s1.cur_thrd < N then
      match (s1.thrds ⟨s1.cur_thrd, h⟩).state with
      | .NEW =>
        s1.cur_thrd ::
          ready_run N steps
            (set_thrd_state ⟨s1.cur_thrd, h⟩ .RUN
              (sched_enter 0 ⟨s1.cur_thrd, h⟩ s1))
      | .RUN => s1.cur_thrd :: ready_run N steps s1
      | _ => ready_run N steps s1
    else ready_run N steps s1

/-- Three always-ready threads A, B, C scheduled in that order into slots
0, 1, 2 of a fresh scheduler. -/
def abc_global : coop_sched_global_t 3 :=
  (coop_sched_thread 3 64 (some 3) none 0 0
    (coop_sched_thread 3 64 (some 2) none 0 0
      (coop_sched_thread 3 64 (some 1) none 0 0 (start_global 3)).2).2).2

/-- The depth-recomputation loop of `_mark_unwind_thrds`: fold the
maximum depth over started (`RUN`/`IDLE`/`WAIT`) slots, starting from
`0`. -/
def started_depth_loop {N : Nat} (s : coop_sched_ctx_t N) :
    List (Fin N) → Nat → Nat
  | [], d => d
  | i :: rest, d =>
    started_depth_loop s rest
      (if _IS_STARTED (s.thrds i).state = true ∧ d < (s.thrds i).depth then
        (s.thrds i).depth
      else d)

/-- "calculate current main stack depth": the maximum depth over started
slots, `0` when none. -/
def started_max_depth {N : Nat} (s : coop_sched_ctx_t N) : Nat :=
  started_depth_loop s (List.finRange N) 0

/-- The hole-clearing loop of `_mark_unwind_thrds`: every `HOLE` slot at
depth greater than the recomputed depth `d` is marked `EMPTY`
(decrementing `busy_n` and `hole_n`), and the hole sitting exactly at
`d + 1` is recorded as the unwind target. -/
def clear_holes_loop {N : Nat} (d : Nat) :
    List (Fin N) → coop_sched_ctx_t N × Nat → coop_sched_ctx_t N × Nat
  | [], su => su
  | i :: rest, (s, u) =>
    if (s.thrds i).state = .HOLE ∧ d + 1 ≤ (s.thrds i).depth then
      clear_holes_loop d rest
        ({ s with
            thrds := Function.update s.thrds i
              { s.thrds i with state := .EMPTY },
            busy_n := s.busy_n - 1, hole_n := s.hole_n - 1 },
          if d + 1 = (s.thrds i).depth then i.val else u)
    else clear_holes_loop d rest (s, u)

/-- First step of `_mark_unwind_thrds`: "mark the terminating (most
shallow) thread as EMPTY", `busy_n--`. -/
def mark_cur_empty {N : Nat} (cur : Fin N) (s : coop_sched_ctx_t N) :
    coop_sched_ctx_t N :=
  { s with
    thrds := Function.update s.thrds cur
      { s.thrds cur with state := .EMPTY },
    busy_n := s.busy_n - 1 }

/-- `_mark_unwind_thrds` for terminating thread `cur` (`sched.cur_thrd`):
mark it `EMPTY` (`busy_n--`), recompute the main-stack depth, clear the
holes above the new depth when a gap to the old depth exists, store the
new depth and return the unwind-target slot index (the terminating slot
itself when no hole sits just above the new top). -/
def _mark_unwind_thrds {N : Nat} (cur : Fin N) (s : coop_sched_ctx_t N) :
    coop_sched_ctx_t N × Nat :=
  let s0 := mark_cur_empty cur s
  let depth := started_max_depth s0
  let su :=
    if depth + 1 < s0.depth then
      clear_holes_loop depth (List.finRange N) (s0, cur.val)
    else (s0, cur.val)
  ({ su.1 with depth := depth }, su.2)

/-- The thread-termination transition (tail of the `NEW` dispatch case of
`coop_sched_service`): when the entry routine of the current thread
returns, a thread below the current main-stack depth becomes a `HOLE`
(`hole_n++`) and control longjmps back to the scheduler (no unwind,
`none`); otherwise the topmost thread is dismantled by
`_mark_unwind_thrds`, which also picks the slot whose saved entry context
receives the unwind jump. -/
def thrd_terminate {N : Nat} (cur : Fin N) (s : coop_sched_ctx_t N) :
    coop_sched_ctx_t N × Option Nat :=
  if (s.thrds cur).depth < s.depth then
    ({ s with
        thrds := Function.update s.thrds cur
          { s.thrds cur with state := .HOLE },
        hole_n := s.hole_n + 1 }, none)
  else
    ((_mark_unwind_thrds cur s).1, some (_mark_unwind_thrds cur s).2)

/-- `LIVE`: slots whose stack region occupies the main stack
(started or `HOLE`); their depths form the contiguous prefix
`{1..sched.depth}`. -/
def LIVE (t : coop_thrd_ctx_t) : Bool :=
  _IS_STARTED t.state || t.state == .HOLE

/-- The depth part of the scheduler invariant: the depths of `LIVE`
(`RUN`/`IDLE`/`WAIT`/`HOLE`) slots are a permutation of `{1..D}`:
bounded by `D`, pairwise distinct, and attaining every value of
`{1..D}`. -/
def depths_perm {N : Nat} (s : coop_sched_ctx_t N) (D : Nat) : Prop :=
  (∀ i, LIVE (s.thrds i) = true →
      1 ≤ (s.thrds i).depth ∧ (s.thrds i).depth ≤ D) ∧
  (∀ i j, LIVE (s.thrds i) = true → LIVE (s.thrds j) = true →
      (s.thrds i).depth = (s.thrds j).depth → i = j) ∧
  (∀ d ∈ Finset.Icc 1 D, ∃ i, LIVE (s.thrds i) = true ∧ (s.thrds i).depth = d)

instance {N : Nat} (s : coop_sched_ctx_t N) (D : Nat) :
    Decidable (depths_perm s D) := by
  unfold depths_perm; infer_instance

/-- The scheduler invariant between iterations: correct counters and live
depths forming a permutation of `{1..sched.depth}`. -/
def sched_inv {N : Nat} (s : coop_sched_ctx_t N) : Prop :=
  counters_ok s ∧ depths_perm s s.depth

instance {N : Nat} (s : coop_sched_ctx_t N) : Decidable (sched_inv s) := by
  unfold sched_inv; infer_instance

/-- `coop_idle(period)`: a positive period records the wake-up tick
`idle_to = now + period`, counts the slot idle and performs
`_yield(IDLE)`; a zero period degrades to a plain `_yield(RUN)`.  `now`
is the `coop_tick_cb()` value. -/
def coop_idle {N : Nat} (period now : Nat) (cur : Fin N)
    (s : coop_sched_ctx_t N) : coop_sched_ctx_t N :=
  if 0 < period then
    set_thrd_state cur .IDLE
      { s with
        idle_n := s.idle_n + 1,
        thrds := Function.update s.thrds cur
          { s.thrds cur with idle_to := (now + period) % TICK_MOD } }
  else set_thrd_state cur .RUN s

/-- The `IDLE → RUN` promotion used both by the `_system_idle` loop and
by the `IDLE` dispatch case of the service loop: the slot becomes `RUN`
and `idle_n` is decremented. -/
def sched_idle_promote {N : Nat} (i : Fin N) (s : coop_sched_ctx_t N) :
    coop_sched_ctx_t N :=
  { set_thrd_state i .RUN s with idle_n := s.idle_n - 1 }

/-- One atomic mutation of the scheduler state, at service-loop
granularity: dispatcher steps, the API calls a running thread may
perform, entry into a `NEW` thread and thread termination.  The mode
`some i` marks the single slot whose entry routine is running before its
first yield (the stack-carving phase); `none` is the ordinary boundary
between loop iterations. -/
inductive coop_sched_step (N : Nat) :
    Option (Fin N) → coop_sched_ctx_t N → Option (Fin N) →
      coop_sched_ctx_t N → Prop
  | advance (s : coop_sched_ctx_t N) :
      coop_sched_step N none s none (sched_advance s)
  | idle_promote (s : coop_sched_ctx_t N) (i : Fin N)
      (h : (s.thrds i).state = .IDLE) :
      coop_sched_step N none s none (sched_idle_promote i s)
  | wait_timeout (s : coop_sched_ctx_t N) (i : Fin N) (now : Nat)
      (h : (s.thrds i).state = .WAIT) :
      coop_sched_step N none s none (sched_wait_case now i s)
  | run_stamp (s : coop_sched_ctx_t N) (i : Fin N) (now : Nat)
      (h : (s.thrds i).state = .RUN) :
      coop_sched_step N none s none
        { s with
          thrds := Function.update s.thrds i
            { s.thrds i with switch_tick := now } }
  | sched (m : Option (Fin N)) (s : coop_sched_ctx_t N)
      (proc name : Option Nat) (stack_sz arg dflt : Nat)
      (hp : proc ≠ none) (hb : s.busy_n < N) :
      coop_sched_step N m s m
        (sched_thread_loop N proc name stack_sz arg dflt (List.finRange N) s)
  | notify (m : Option (Fin N)) (s : coop_sched_ctx_t N) (sem : Int) :
      coop_sched_step N m s m (coop_notify N sem s)
  | notify_all (m : Option (Fin N)) (s : coop_sched_ctx_t N) (sem : Int) :
      coop_sched_step N m s m (coop_notify_all N sem s)
  | yield (s : coop_sched_ctx_t N) (i : Fin N)
      (h : (s.thrds i).state = .RUN) :
      coop_sched_step N none s none (set_thrd_state i .RUN s)
  | idle (s : coop_sched_ctx_t N) (i : Fin N) (period now : Nat)
      (h : (s.thrds i).state = .RUN) :
      coop_sched_step N none s none (coop_idle period now i s)
  | wait (s : coop_sched_ctx_t N) (i : Fin N) (sem : Int)
      (timeout now : Nat) (h : (s.thrds i).state = .RUN) :
      coop_sched_step N none s none (coop_wait_entry sem timeout now i s)
  | term (s : coop_sched_ctx_t N) (i : Fin N)
      (h : (s.thrds i).state = .RUN) :
      coop_sched_step N none s none (thrd_terminate i s).1
  | enter (s : coop_sched_ctx_t N) (i : Fin N) (now : Nat)
      (h : (s.thrds i).state = .NEW) :
      coop_sched_step N none s (some i) (sched_enter now i s)
  | first_yield (s : coop_sched_ctx_t N) (i : Fin N) :
      coop_sched_step N (some i) s none (set_thrd_state i .RUN s)
  | first_idle (s : coop_sched_ctx_t N) (i : Fin N) (period now : Nat) :
      coop_sched_step N (some i) s none (coop_idle period now i s)
  | first_wait (s : coop_sched_ctx_t N) (i : Fin N) (sem : Int)
      (timeout now : Nat) :
      coop_sched_step N (some i) s none (coop_wait_entry sem timeout now i s)
  | first_ret (s : coop_sched_ctx_t N) (i : Fin N) :
      coop_sched_step N (some i) s none (thrd_terminate i s).1

/-- The scheduler states reachable from the freshly initialized state
through scheduling, dispatching, yields, waits, notifications and
terminations. -/
inductive coop_sched_reach (N : Nat) :
    Option (Fin N) → coop_sched_ctx_t N → Prop
  | init : coop_sched_reach N none (init_sched N)
  | step {m : Option (Fin N)} {s : coop_sched_ctx_t N}
      {m' : Option (Fin N)} {s' : coop_sched_ctx_t N} :
      coop_sched_reach N m s → coop_sched_step N m s m' s' →
      coop_sched_reach N m' s'

/-- The invariant during the stack-carving phase: the mid-entry slot is
`NEW` and owns the freshly pushed top depth, while the live depths of all
other slots fill `{1..sched.depth - 1}`. -/
def sched_inv_mid {N : Nat} (s : coop_sched_ctx_t N) (cur : Fin N) : Prop :=
  counters_ok s ∧ depths_perm s (s.depth - 1) ∧
  (s.thrds cur).state = .NEW ∧ (s.thrds cur).depth = s.depth ∧ 1 ≤ s.depth

/-- The invariant attached to each mode of the step relation. -/
def mode_inv {N : Nat} : Option (Fin N) → coop_sched_ctx_t N → Prop
  | none, s => sched_inv s
  | some i, s => sched_inv_mid s i

/-- The per-slot scan of `_system_idle`: every `IDLE` slot whose
`idle_to` has passed relative to `cur_tick` is promoted to `RUN`
(`idle_n--`); the wrap-safe distances `idle_to - cur_tick` of the
remaining `IDLE` slots fold into the accumulator `min_idle`. -/
def system_idle_scan {N : Nat} (cur_tick : Nat) :
    List (Fin N) → coop_sched_ctx_t N × Nat → coop_sched_ctx_t N × Nat
  | [], sm => sm
  | i :: rest, (s, min_idle) =>
    if (s.thrds i).state ≠ .IDLE then
      system_idle_scan cur_tick rest (s, min_idle)
    else if COOP_IS_TICK_OVER cur_tick (s.thrds i).idle_to = true then
      system_idle_scan cur_tick rest (sched_idle_promote i s, min_idle)
    else if tick_sub (s.thrds i).idle_to cur_tick < min_idle then
      system_idle_scan cur_tick rest (s, tick_sub (s.thrds i).idle_to cur_tick)
    else system_idle_scan cur_tick rest (s, min_idle)

/-- The `while` loop of `_system_idle`.  `i` is the C loop variable
(zero exactly on the first pass — `coop_idle_cb` is skipped then);
`time` models the platform clock.  Modelled from the spec: the platform
idle primitive `idle_cb(ticks)` sleeps for the requested ticks, modelled
as advancing the clock by exactly `min_idle`; the returned list logs the
argument of each `coop_idle_cb` invocation.  The loop terminates for any
sufficient `fuel`; `fuel` only makes the recursion structural. -/
def system_idle_loop (N : Nat) :
    Nat → Nat → Nat → Nat → coop_sched_ctx_t N → List Nat →
      coop_sched_ctx_t N × Nat × List Nat
  | 0, _, _, time, s, log => (s, time, log)
  | fuel+1, i, min_idle, time, s, log =>
    if 0 < s.idle_n ∧ s.busy_n - s.hole_n ≤ s.idle_n then
      let time1 := if i ≠ 0 then time + min_idle else time
      let log1 := if i ≠ 0 then log ++ [min_idle] else log
      let sm := system_idle_scan time1 (List.finRange N) (s, COOP_MAX_TICK)
      system_idle_loop N fuel N sm.2 time1 sm.1 log1
    else (s, time, log)

/-- `_system_idle`: check the idle-ready condition and collapse the
system onto the nearest wake-up time.  Returns the scheduler state, the
clock after the collapse, and the log of `coop_idle_cb` invocations. -/
def _system_idle {N : Nat} (fuel time : Nat) (s : coop_sched_ctx_t N) :
    coop_sched_ctx_t N × Nat × List Nat :=
  system_idle_loop N fuel 0 0 time s []

/-- A three-slot scheduler in the hole-coalescing scenario: thread 0
started first (depth 1), thread 1 terminated buried under thread 2
(a `HOLE` at depth 2), thread 2 running topmost (depth 3). -/
def c1_example : coop_sched_ctx_t 3 :=
  { cur_thrd := 2, busy_n := 3, hole_n := 1, idle_n := 0, depth := 3,
    exe_ctx := 0,
    thrds := fun i =>
      if i.val = 0 then { state := .RUN, depth := 1 }
      else if i.val = 1 then { state := .HOLE, depth := 2 }
      else { state := .RUN, depth := 3 } }

/-! ### Theorems -/

/-- `sched_thread_loop` leaves the state unchanged when no slot of the
scanned list is `EMPTY`. -/
theorem sched_thread_loop_no_empty {N : Nat} (proc name : Option Nat)
    (stack_sz arg dflt : Nat) (l : List (Fin N)) (s : coop_sched_ctx_t N)
    (h : ∀ i ∈ l, (s.thrds i).state ≠ .EMPTY) :
    sched_thread_loop N proc name stack_sz arg dflt l s = s := by
  induction l with
  | nil => rfl
  | cons a t ih =>
    rw [sched_thread_loop, if_neg (h a (List.mem_cons_self a t))]
    exact ih fun i hi => h i (List.mem_cons_of_mem a hi)

/-- `sched_thread_loop` on a `<`-sorted list initializes exactly the first
`EMPTY` slot. -/
theorem sched_thread_loop_first {N : Nat} (proc name : Option Nat)
    (stack_sz arg dflt : Nat) (l : List (Fin N))
    (hl : l.Pairwise (· < ·)) (s : coop_sched_ctx_t N) (i : Fin N)
    (hmem : i ∈ l) (hempty : (s.thrds i).state = .EMPTY)
    (hfirst : ∀ j, j < i → j ∈ l → (s.thrds j).state ≠ .EMPTY) :
    sched_thread_loop N proc name stack_sz arg dflt l s =
      thread_init_slot proc name stack_sz arg dflt i s := by
  induction l with
  | nil => cases hmem
  | cons a t ih =>
    by_cases ha : (s.thrds a).state = .EMPTY
    · have hia : i = a := by
        rcases List.mem_cons.mp hmem with h | h
        · exact h
        · exact absurd ha (hfirst a ((List.pairwise_cons.mp hl).1 i h) (List.mem_cons_self a t))
      rw [sched_thread_loop, if_pos ha, hia]
    · have hit : i ∈ t := by
        rcases List.mem_cons.mp hmem with h | h
        · exact absurd (h ▸ hempty) ha
        · exact h
      rw [sched_thread_loop, if_neg ha]
      exact ih (List.pairwise_cons.mp hl).2 hit
        fun j hj hjt => hfirst j hj (List.mem_cons_of_mem a hjt)

/-- If fewer than `N` slots are non-`EMPTY` then some slot is `EMPTY`. -/
theorem exists_empty_slot {N : Nat} (s : coop_sched_ctx_t N)
    (h : count_slots s (fun t => !(t.state == .EMPTY)) < N) :
    ∃ i : Fin N, (s.thrds i).state = .EMPTY := by
  by_contra hno
  push_neg at hno
  have : (Finset.univ.filter
      (fun i => (!((s.thrds i).state == .EMPTY)) = true)) = Finset.univ := by
    apply Finset.filter_true_of_mem
    intro i _
    simpa using hno i
  rw [count_slots, this, Finset.card_univ, Fintype.card_fin] at h
  exact lt_irrefl _ h

/-- Claim C3: `coop_sched_thread` returns `COOP_INV_ARG` iff `proc` is
absent, `COOP_ERR_LIMIT` iff `proc` is present and the pool is full
(`busy_n ≥ CONFIG_MAX_THREADS`); both failures leave the scheduler state
unchanged.  Otherwise it returns `COOP_SUCCESS` after reserving the first
(lowest-index) `EMPTY` slot, initializing it to `NEW` with `depth = 0` and
both saved contexts zeroed, substituting the configured default stack size
for a zero request, incrementing `busy_n` by exactly one and leaving every
other slot (and the remaining scheduler fields) unchanged. -/
theorem claim_C3 {N : Nat} (dflt stack_sz arg : Nat)
    (proc tname : Option Nat) (g : coop_sched_global_t N)
    (hInit : g.inited = true)
    (hBusy : g.sched.busy_n = count_slots g.sched (fun t => !(t.state == .EMPTY))) :
    (((coop_sched_thread N dflt proc tname stack_sz arg g).1 = .COOP_INV_ARG) ↔
        proc = none) ∧
    (((coop_sched_thread N dflt proc tname stack_sz arg g).1 = .COOP_ERR_LIMIT) ↔
        (proc ≠ none ∧ N ≤ g.sched.busy_n)) ∧
    ((coop_sched_thread N dflt proc tname stack_sz arg g).1 ≠ .COOP_SUCCESS →
        (coop_sched_thread N dflt proc tname stack_sz arg g).2 = g) ∧
    (proc ≠ none → g.sched.busy_n < N →
      (coop_sched_thread N dflt proc tname stack_sz arg g).1 = .COOP_SUCCESS ∧
      ∃ i : Fin N,
        (g.sched.thrds i).state = .EMPTY ∧
        (∀ j : Fin N, j < i → (g.sched.thrds j).state ≠ .EMPTY) ∧
        (coop_sched_thread N dflt proc tname stack_sz arg g).2 =
          { inited := true,
            sched := thread_init_slot proc tname stack_sz arg dflt i g.sched }) := by
  unfold coop_sched_thread
  by_cases hp : proc = none
  · simp [hp]
  · simp only [hp, if_neg]
    by_cases hb : N ≤ g.sched.busy_n
    · simp [hb, hp]
    · have hlt : g.sched.busy_n < N := lt_of_not_le hb
      simp only [if_neg hb, if_neg hp]
      refine ⟨by simp, by simp [hb], by simp, fun _ _ => ⟨rfl, ?_⟩⟩
      have hg1 : _sched_init N false g = g := by
        unfold _sched_init
        simp [hInit]
      obtain ⟨i, hi⟩ := exists_empty_slot g.sched (hBusy ▸ hlt)
      obtain ⟨i0, hi0e, hi0f⟩ :
          ∃ i0 : Fin N, (g.sched.thrds i0).state = .EMPTY ∧
            ∀ j, j < i0 → (g.sched.thrds j).state ≠ .EMPTY := by
        classical
        obtain ⟨i0, hi0, hmin⟩ :=
          Finset.exists_min_image
            (Finset.univ.filter fun j => (g.sched.thrds j).state = .EMPTY)
            id ⟨i, by simpa using hi⟩
        refine ⟨i0, by simpa using hi0, fun j hj hje => ?_⟩
        have := hmin j (by simpa using hje)
        exact absurd (lt_of_lt_of_le hj this) (lt_irrefl _)
      refine ⟨i0, hi0e, hi0f, ?_⟩
      have := sched_thread_loop_first (N := N) proc tname stack_sz arg dflt
        (List.finRange N) (List.pairwise_lt_finRange N) g.sched i0 (List.mem_finRange i0)
        hi0e (fun j hj _ => hi0f j hj)
      simp [hg1, this, hInit]

/-- Claim C3 witness: scheduling onto a fresh two-slot pool. -/
theorem claim_C3_witness :
    (((coop_sched_thread 2 64 (some 5) (some 9) 0 7
          { inited := true, sched := init_sched 2 }).1 = .COOP_INV_ARG) ↔
        (some 5 : Option Nat) = none) ∧
    (((coop_sched_thread 2 64 (some 5) (some 9) 0 7
          { inited := true, sched := init_sched 2 }).1 = .COOP_ERR_LIMIT) ↔
        ((some 5 : Option Nat) ≠ none ∧
          2 ≤ ({ inited := true, sched := init_sched 2 } :
            coop_sched_global_t 2).sched.busy_n)) ∧
    ((coop_sched_thread 2 64 (some 5) (some 9) 0 7
          { inited := true, sched := init_sched 2 }).1 ≠ .COOP_SUCCESS →
        (coop_sched_thread 2 64 (some 5) (some 9) 0 7
          { inited := true, sched := init_sched 2 }).2 =
          { inited := true, sched := init_sched 2 }) ∧
    ((some 5 : Option Nat) ≠ none →
      ({ inited := true, sched := init_sched 2 } :
          coop_sched_global_t 2).sched.busy_n < 2 →
      (coop_sched_thread 2 64 (some 5) (some 9) 0 7
          { inited := true, sched := init_sched 2 }).1 = .COOP_SUCCESS ∧
      ∃ i : Fin 2,
        (({ inited := true, sched := init_sched 2 } :
            coop_sched_global_t 2).sched.thrds i).state = .EMPTY ∧
        (∀ j : Fin 2, j < i →
          (({ inited := true, sched := init_sched 2 } :
              coop_sched_global_t 2).sched.thrds j).state ≠ .EMPTY) ∧
        (coop_sched_thread 2 64 (some 5) (some 9) 0 7
            { inited := true, sched := init_sched 2 }).2 =
          { inited := true,
            sched := thread_init_slot (some 5) (some 9) 0 7 64 i
              ({ inited := true, sched := init_sched 2 } :
                coop_sched_global_t 2).sched }) :=
  claim_C3 64 0 7 (some 5) (some 9)
    { inited := true, sched := init_sched 2 } rfl (by decide)

/-- Claim C4: after `coop_sched_service` returns (its loop having run
while `busy_n > 0`), the scheduler has been force-reinitialized: every
pool slot is `EMPTY`, the counters `busy_n`, `hole_n`, `idle_n` and
`depth` are all `0`, and `cur_thrd` holds the "none" sentinel, so a fresh
session may begin. -/
theorem claim_C4 (N : Nat) (g : coop_sched_global_t N) :
    (∀ i : Fin N,
        ((coop_sched_service_exit N g).sched.thrds i).state = .EMPTY) ∧
    (coop_sched_service_exit N g).sched.busy_n = 0 ∧
    (coop_sched_service_exit N g).sched.hole_n = 0 ∧
    (coop_sched_service_exit N g).sched.idle_n = 0 ∧
    (coop_sched_service_exit N g).sched.depth = 0 ∧
    (coop_sched_service_exit N g).sched.cur_thrd = UINT_SENTINEL := by
  unfold coop_sched_service_exit _sched_init
  simp [init_sched, zero_sched]

/-- Two scheduler states with equal fields are equal. -/
theorem sched_state_ext {N : Nat} {a b : coop_sched_ctx_t N}
    (h1 : a.cur_thrd = b.cur_thrd) (h2 : a.busy_n = b.busy_n)
    (h3 : a.hole_n = b.hole_n) (h4 : a.idle_n = b.idle_n)
    (h5 : a.depth = b.depth) (h6 : a.exe_ctx = b.exe_ctx)
    (h7 : ∀ i, a.thrds i = b.thrds i) : a = b := by
  cases a; cases b
  simp_all
  exact funext h7

/-- A decidable predicate on `Fin N` with a witness has a least witness. -/
theorem exists_least_fin {N : Nat} (P : Fin N → Prop) [DecidablePred P]
    (h : ∃ i, P i) : ∃ i, P i ∧ ∀ j, j < i → ¬P j := by
  classical
  obtain ⟨i, hi⟩ := h
  obtain ⟨i0, hi0, hmin⟩ :=
    Finset.exists_min_image (Finset.univ.filter fun j => P j) id ⟨i, by simpa using hi⟩
  refine ⟨i0, by simpa using hi0, fun j hj hje => ?_⟩
  exact absurd (lt_of_lt_of_le hj (hmin j (by simpa using hje))) (lt_irrefl _)

/-- `notify_loop` leaves the state unchanged when no scanned slot
matches. -/
theorem notify_loop_no_match {N : Nat} (sem : Int) (l : List (Fin N))
    (s : coop_sched_ctx_t N)
    (h : ∀ i ∈ l, ¬((s.thrds i).state = .WAIT ∧ (s.thrds i).sem_id = sem)) :
    notify_loop N sem l s = s := by
  induction l with
  | nil => rfl
  | cons a t ih =>
    rw [notify_loop, if_neg (h a (List.mem_cons_self a t))]
    exact ih fun i hi => h i (List.mem_cons_of_mem a hi)

/-- `notify_loop` on a `<`-sorted list wakes exactly the first matching
slot. -/
theorem notify_loop_first {N : Nat} (sem : Int) (l : List (Fin N))
    (hl : l.Pairwise (· < ·)) (s : coop_sched_ctx_t N) (i : Fin N)
    (hmem : i ∈ l)
    (hmatch : (s.thrds i).state = .WAIT ∧ (s.thrds i).sem_id = sem)
    (hfirst : ∀ j, j < i → j ∈ l →
      ¬((s.thrds j).state = .WAIT ∧ (s.thrds j).sem_id = sem)) :
    notify_loop N sem l s = wake_slot i s := by
  induction l with
  | nil => cases hmem
  | cons a t ih =>
    by_cases ha : (s.thrds a).state = .WAIT ∧ (s.thrds a).sem_id = sem
    · have hia : i = a := by
        rcases List.mem_cons.mp hmem with h | h
        · exact h
        · exact absurd ha (hfirst a ((List.pairwise_cons.mp hl).1 i h) (List.mem_cons_self a t))
      rw [notify_loop, if_pos ha, hia]
    · have hit : i ∈ t := by
        rcases List.mem_cons.mp hmem with h | h
        · exact absurd (h ▸ hmatch) ha
        · exact h
      rw [notify_loop, if_neg ha]
      exact ih (List.pairwise_cons.mp hl).2 hit
        fun j hj hjt => hfirst j hj (List.mem_cons_of_mem a hjt)

/-- Slot-wise description of the `coop_notify_all` scan over a duplicate
free list. -/
theorem notify_all_loop_thrds {N : Nat} (sem : Int) (l : List (Fin N))
    (hnd : l.Nodup) (s : coop_sched_ctx_t N) (j : Fin N) :
    (notify_all_loop N sem l s).thrds j =
      if j ∈ l ∧ (s.thrds j).state = .WAIT ∧ (s.thrds j).sem_id = sem then
        { s.thrds j with wait_flgs_notif := true, state := .RUN }
      else s.thrds j := by
  induction l generalizing s with
  | nil => simp [notify_all_loop]
  | cons a t ih =>
    have hat : a ∉ t := (List.nodup_cons.mp hnd).1
    rw [notify_all_loop]
    by_cases ha : (s.thrds a).state = .WAIT ∧ (s.thrds a).sem_id = sem
    · rw [if_pos ha, ih (List.nodup_cons.mp hnd).2]
      by_cases hja : j = a
      · subst hja
        simp [wake_slot, hat, ha]
      · have : (wake_slot a s).thrds j = s.thrds j := by
          simp [wake_slot, Function.update_noteq hja]
        rw [this]
        by_cases hjt : j ∈ t
        · simp [hjt, hja, this]
        · simp [hjt, hja]
    · rw [if_neg ha, ih (List.nodup_cons.mp hnd).2]
      by_cases hja : j = a
      · subst hja
        simp [hat, ha]
      · by_cases hjt : j ∈ t
        · simp [hjt, hja]
        · simp [hjt, hja]

/-- The `coop_notify_all` scan never touches the scheduler's scalar
fields. -/
theorem notify_all_loop_fields {N : Nat} (sem : Int) (l : List (Fin N))
    (s : coop_sched_ctx_t N) :
    (notify_all_loop N sem l s).cur_thrd = s.cur_thrd ∧
    (notify_all_loop N sem l s).busy_n = s.busy_n ∧
    (notify_all_loop N sem l s).hole_n = s.hole_n ∧
    (notify_all_loop N sem l s).idle_n = s.idle_n ∧
    (notify_all_loop N sem l s).depth = s.depth ∧
    (notify_all_loop N sem l s).exe_ctx = s.exe_ctx := by
  induction l generalizing s with
  | nil => simp [notify_all_loop]
  | cons a t ih =>
    rw [notify_all_loop]
    by_cases ha : (s.thrds a).state = .WAIT ∧ (s.thrds a).sem_id = sem
    · rw [if_pos ha]
      simpa [wake_slot] using ih (wake_slot a s)
    · rw [if_neg ha]
      exact ih s

/-- Claim C6: `coop_notify(sem_id)` transitions to `RUN` and sets the
notified flag of exactly the lowest-index slot whose state is `WAIT` and
whose `sem_id` matches, waking at most one waiter; `coop_notify_all`
does the same for every matching `WAIT` slot; when no slot matches, both
operations leave the scheduler state entirely unchanged. -/
theorem claim_C6 {N : Nat} (sem : Int) (s : coop_sched_ctx_t N) :
    ((∃ i : Fin N, (s.thrds i).state = .WAIT ∧ (s.thrds i).sem_id = sem) →
      ∃ i : Fin N,
        ((s.thrds i).state = .WAIT ∧ (s.thrds i).sem_id = sem) ∧
        (∀ j : Fin N, j < i →
          ¬((s.thrds j).state = .WAIT ∧ (s.thrds j).sem_id = sem)) ∧
        ((coop_notify N sem s).thrds i).state = .RUN ∧
        ((coop_notify N sem s).thrds i).wait_flgs_notif = true ∧
        (∀ j : Fin N, j ≠ i → (coop_notify N sem s).thrds j = s.thrds j) ∧
        coop_notify N sem s = wake_slot i s) ∧
    ((¬∃ i : Fin N, (s.thrds i).state = .WAIT ∧ (s.thrds i).sem_id = sem) →
      coop_notify N sem s = s) ∧
    (∀ j : Fin N, ((s.thrds j).state = .WAIT ∧ (s.thrds j).sem_id = sem) →
      (coop_notify_all N sem s).thrds j =
        { s.thrds j with wait_flgs_notif := true, state := .RUN }) ∧
    (∀ j : Fin N, ¬((s.thrds j).state = .WAIT ∧ (s.thrds j).sem_id = sem) →
      (coop_notify_all N sem s).thrds j = s.thrds j) ∧
    ((¬∃ i : Fin N, (s.thrds i).state = .WAIT ∧ (s.thrds i).sem_id = sem) →
      coop_notify_all N sem s = s) := by
  refine ⟨?_, ?_, ?_, ?_, ?_⟩
  · intro hex
    obtain ⟨i, hi, hleast⟩ := exists_least_fin _ hex
    have heq : coop_notify N sem s = wake_slot i s :=
      notify_loop_first sem (List.finRange N) (List.pairwise_lt_finRange N) s i
        (List.mem_finRange i) hi (fun j hj _ => hleast j hj)
    refine ⟨i, hi, hleast, ?_, ?_, ?_, heq⟩
    · simp [heq, wake_slot]
    · simp [heq, wake_slot]
    · intro j hj
      simp [heq, wake_slot, Function.update_noteq hj]
  · intro hno
    exact notify_loop_no_match sem (List.finRange N) s
      fun i _ hi => hno ⟨i, hi⟩
  · intro j hj
    rw [coop_notify_all,
      notify_all_loop_thrds sem (List.finRange N) (List.nodup_finRange N) s j,
      if_pos ⟨List.mem_finRange j, hj⟩]
  · intro j hj
    rw [coop_notify_all,
      notify_all_loop_thrds sem (List.finRange N) (List.nodup_finRange N) s j]
    simp [hj]
  · intro hno
    obtain ⟨f1, f2, f3, f4, f5, f6⟩ :=
      notify_all_loop_fields sem (List.finRange N) s
    refine sched_state_ext f1 f2 f3 f4 f5 f6 fun j => ?_
    rw [coop_notify_all,
      notify_all_loop_thrds sem (List.finRange N) (List.nodup_finRange N) s j]
    simp only [coop_notify_all] at *
    have : ¬((s.thrds j).state = .WAIT ∧ (s.thrds j).sem_id = sem) :=
      fun hj => hno ⟨j, hj⟩
    simp [this]

/-- Claim C7: `coop_wait(sem_id, timeout)` records `sem_id`, clears the
notified flag and transitions the calling slot to `WAIT`; a zero timeout
sets the infinite flag, a nonzero timeout sets `wait_to = now + timeout`.
Upon resumption it returns `true` when the wake-up came from a matching
notification, and `false` when it came from the dispatcher's
`WAIT → RUN` timeout path, which relies on the flag's initial clearing. -/
theorem claim_C7 {N : Nat} (sem : Int) (timeout now now2 : Nat)
    (cur : Fin N) (s : coop_sched_ctx_t N) :
    ((coop_wait_entry sem timeout now cur s).thrds cur).sem_id = sem ∧
    ((coop_wait_entry sem timeout now cur s).thrds cur).wait_flgs_notif = false ∧
    ((coop_wait_entry sem timeout now cur s).thrds cur).state = .WAIT ∧
    (timeout = 0 →
      ((coop_wait_entry sem timeout now cur s).thrds cur).wait_flgs_inf = true) ∧
    (timeout ≠ 0 →
      ((coop_wait_entry sem timeout now cur s).thrds cur).wait_flgs_inf = false ∧
      ((coop_wait_entry sem timeout now cur s).thrds cur).wait_to =
        (now + timeout) % TICK_MOD) ∧
    ((sched_wait_case now2 cur (coop_wait_entry sem timeout now cur s)).thrds cur).wait_flgs_notif
        = false ∧
    coop_wait_ret cur (sched_wait_case now2 cur (coop_wait_entry sem timeout now cur s))
        = false ∧
    ((∀ j : Fin N, j < cur →
        ¬(((coop_wait_entry sem timeout now cur s).thrds j).state = .WAIT ∧
          ((coop_wait_entry sem timeout now cur s).thrds j).sem_id = sem)) →
      coop_wait_ret cur (coop_notify N sem (coop_wait_entry sem timeout now cur s))
        = true) := by
  have hcur : (coop_wait_entry sem timeout now cur s).thrds cur =
      (if timeout ≠ 0 then
        { s.thrds cur with
          sem_id := sem, wait_flgs_notif := false,
          wait_to := (now + timeout) % TICK_MOD, wait_flgs_inf := false,
          state := .WAIT }
      else
        { s.thrds cur with
          sem_id := sem, wait_flgs_notif := false,
          wait_to := 0, wait_flgs_inf := true, state := .WAIT }) := by
    by_cases ht : timeout = 0 <;>
      simp [coop_wait_entry, set_thrd_state, ht]
  have hnotif : ((coop_wait_entry sem timeout now cur s).thrds cur).wait_flgs_notif
      = false := by
    rw [hcur]; by_cases ht : timeout = 0 <;> simp [ht]
  have hwaitst : ((coop_wait_entry sem timeout now cur s).thrds cur).state = .WAIT := by
    rw [hcur]; by_cases ht : timeout = 0 <;> simp [ht]
  have hsem : ((coop_wait_entry sem timeout now cur s).thrds cur).sem_id = sem := by
    rw [hcur]; by_cases ht : timeout = 0 <;> simp [ht]
  refine ⟨hsem, hnotif, hwaitst, ?_, ?_, ?_, ?_, ?_⟩
  · intro ht; rw [hcur]; simp [ht]
  · intro ht; rw [hcur]; simp [ht]
  · unfold sched_wait_case
    by_cases hc : ((coop_wait_entry sem timeout now cur s).thrds cur).wait_flgs_inf = true ∨
        ¬COOP_IS_TICK_OVER now2 ((coop_wait_entry sem timeout now cur s).thrds cur).wait_to
          = true
    · rw [if_pos hc]; exact hnotif
    · rw [if_neg hc]; simp [set_thrd_state, hnotif]
  · unfold sched_wait_case coop_wait_ret
    by_cases hc : ((coop_wait_entry sem timeout now cur s).thrds cur).wait_flgs_inf = true ∨
        ¬COOP_IS_TICK_OVER now2 ((coop_wait_entry sem timeout now cur s).thrds cur).wait_to
          = true
    · rw [if_pos hc]; exact hnotif
    · rw [if_neg hc]; simp [set_thrd_state, hnotif]
  · intro hlow
    have heq : coop_notify N sem (coop_wait_entry sem timeout now cur s) =
        wake_slot cur (coop_wait_entry sem timeout now cur s) :=
      notify_loop_first sem (List.finRange N) (List.pairwise_lt_finRange N) _ cur
        (List.mem_finRange cur) ⟨hwaitst, hsem⟩ (fun j hj _ => hlow j hj)
    rw [heq]
    simp [coop_wait_ret, wake_slot]

/-- Claim C9 counterexample: with `switch_tick = 45`, current tick `50`
and limit `10`, the code yields and returns `true` (the current tick is
over the absolute tick `10`) although the tick is not past the limit
relative to `switch_tick` (`45 + 10 = 55`), so the claim's reading would
return `false` without yielding. -/
theorem claim_C9_counterexample :
    (coop_yield_after (N := 1) 10 50 0
        { init_sched 1 with thrds := fun _ => { switch_tick := 45 } }).1 = true ∧
    yield_after_claim (N := 1) 10 50 0
        { init_sched 1 with thrds := fun _ => { switch_tick := 45 } } = false := by
  constructor
  · rfl
  · rfl

/-- Claim C9 (amended): `coop_yield_after(after)` yields (via
`_yield(RUN)`) and returns `true` exactly when the current tick is past
the absolute tick `after` (wrap-safe comparison); otherwise it returns
`false` without yielding, leaving the calling thread's slot and the whole
scheduler state unchanged.  The `switch_tick` stamped at the thread's
last resume is not consulted. -/
theorem claim_C9 {N : Nat} (after now : Nat) (cur : Fin N)
    (s : coop_sched_ctx_t N) :
    ((coop_yield_after after now cur s).1 = true ↔
      COOP_IS_TICK_OVER now after = true) ∧
    (COOP_IS_TICK_OVER now after = true →
      (coop_yield_after after now cur s).2 = set_thrd_state cur .RUN s) ∧
    ((coop_yield_after after now cur s).1 = false →
      (coop_yield_after after now cur s).2 = s) := by
  unfold coop_yield_after
  by_cases h : COOP_IS_TICK_OVER now after = true
  · simp [h]
  · simp [h]

/-- Claim C9 witness: a concrete tick past the limit yields, a concrete
tick short of the limit returns `false` leaving the state unchanged. -/
theorem claim_C9_witness :
    (coop_yield_after (N := 1) 10 50 0 (init_sched 1)).1 = true ∧
    (coop_yield_after (N := 1) 10 50 0 (init_sched 1)).2 =
      set_thrd_state 0 .RUN (init_sched 1) ∧
    (coop_yield_after (N := 1) 100 50 0 (init_sched 1)).1 = false ∧
    (coop_yield_after (N := 1) 100 50 0 (init_sched 1)).2 = init_sched 1 := by
  refine ⟨(claim_C9 10 50 0 (init_sched 1)).1.mpr (by decide),
    (claim_C9 10 50 0 (init_sched 1)).2.1 (by decide), by decide,
    (claim_C9 100 50 0 (init_sched 1)).2.2 (by decide)⟩

/-- Claim C10: when called from a currently executing thread
(`cur_thrd < CONFIG_MAX_THREADS`), `coop_thread_name` returns that
thread's display name (possibly null); before the first dispatch
`cur_thrd` holds the `(unsigned)-1` sentinel, which is out of range, so
without the precondition the embedding's out-of-range branch is
reached. -/
theorem claim_C10 {N : Nat} (s : coop_sched_ctx_t N)
    (hN : N < UINT_SENTINEL) :
    (∀ h : s.cur_thrd < N,
      coop_thread_name s = some ((s.thrds ⟨s.cur_thrd, h⟩).name)) ∧
    (init_sched N).cur_thrd = UINT_SENTINEL ∧
    coop_thread_name (init_sched N) = none := by
  refine ⟨fun h => ?_, rfl, ?_⟩
  · rw [coop_thread_name, dif_pos h]
  · rw [coop_thread_name, dif_neg]
    simp only [init_sched, zero_sched]
    omega

/-- Claim C10 witness. -/
theorem claim_C10_witness :
    (coop_thread_name { init_sched 2 with cur_thrd := 1 } =
      some (({ init_sched 2 with cur_thrd := 1 }.thrds
        ⟨1, by decide⟩).name)) ∧
    (init_sched 2).cur_thrd = UINT_SENTINEL ∧
    coop_thread_name (init_sched 2) = none := by
  obtain ⟨h1, h2, h3⟩ :=
    claim_C10 (N := 2) { init_sched 2 with cur_thrd := 1 } (by decide)
  exact ⟨h1 (by decide), h2, h3⟩

/-- Characterization of the dispatch scan: a dispatched slot is eligible
and is the cyclically first eligible slot after `cur_thrd`. -/
theorem dispatch_first_aux_spec {N : Nat} (elig : Fin N → Bool)
    (hN : N < UINT_MOD) :
    ∀ fuel c (i : Fin N), dispatch_first_aux N elig c fuel = some i →
      elig i = true ∧
      ∃ k, k < fuel ∧ i.val = cyc_slot N c k ∧
        ∀ k', k' < k → ∀ h : cyc_slot N c k' < N,
          elig ⟨cyc_slot N c k', h⟩ = false := by
  intro fuel
  induction fuel with
  | zero => intro c i h; cases h
  | succ fuel ih =>
    intro c i h
    have hpos : 0 < N := i.pos
    have hb : (c + 1) % UINT_MOD % N < N := Nat.mod_lt _ hpos
    rw [dispatch_first_aux, dif_pos hb] at h
    have hcyc0 : cyc_slot N c 0 = (c + 1) % UINT_MOD % N := by
      unfold cyc_slot
      simp [Nat.mod_eq_of_lt hb]
    by_cases he : elig ⟨(c + 1) % UINT_MOD % N, hb⟩ = true
    · rw [if_pos he] at h
      obtain rfl : i = ⟨(c + 1) % UINT_MOD % N, hb⟩ := by
        cases h; rfl
      refine ⟨he, 0, Nat.succ_pos _, hcyc0.symm, fun k' hk' _ => absurd hk' (Nat.not_lt_zero _)⟩
    · rw [if_neg he] at h
      obtain ⟨he2, k, hk, hkv, hkm⟩ := ih ((c + 1) % UINT_MOD % N) i h
      have hshift : ∀ m, cyc_slot N ((c + 1) % UINT_MOD % N) m = cyc_slot N c (m + 1) := by
        intro m
        unfold cyc_slot
        have h1 : ((c + 1) % UINT_MOD % N + 1) % UINT_MOD =
            (c + 1) % UINT_MOD % N + 1 :=
          Nat.mod_eq_of_lt (lt_of_le_of_lt hb hN)
        rw [h1, Nat.mod_add_mod]
        congr 1
        omega
      refine ⟨he2, k + 1, Nat.succ_lt_succ hk, by rw [← hshift k]; exact hkv, ?_⟩
      intro k' hk' hlt
      match k', hk', hlt with
      | 0, _, hlt =>
        rw [Bool.eq_false_iff]
        intro habs
        apply he
        have hfe : (⟨cyc_slot N c 0, hlt⟩ : Fin N) = ⟨(c + 1) % UINT_MOD % N, hb⟩ :=
          Fin.ext hcyc0
        rw [hfe] at habs
        exact habs
      | k'' + 1, hk', hlt =>
        have hlt2 : cyc_slot N ((c + 1) % UINT_MOD % N) k'' < N := by
          rw [hshift k'']; exact hlt
        have h2 := hkm k'' (Nat.lt_of_succ_lt_succ hk') hlt2
        have hfe : (⟨cyc_slot N c (k'' + 1), hlt⟩ : Fin N) =
            ⟨cyc_slot N ((c + 1) % UINT_MOD % N) k'', hlt2⟩ :=
          Fin.ext (hshift k'').symm
        rw [hfe]
        exact h2

/-- Claim C5: the service loop advances `cur_thrd` cyclically by one at
loop entry; when several slots are simultaneously eligible the dispatched
slot is the one with the smallest cyclic offset after `cur_thrd`; for
three always-ready threads A, B, C scheduled in that index order, the
first three resumes after dispatch begins are A, B, C. -/
theorem claim_C5 {N : Nat} (hN : N < UINT_MOD) (s : coop_sched_ctx_t N)
    (elig : Fin N → Bool) :
    ((sched_advance s).cur_thrd = (s.cur_thrd + 1) % UINT_MOD % N ∧
      (sched_advance s).thrds = s.thrds) ∧
    (∀ i : Fin N, dispatch_first N elig s = some i →
      elig i = true ∧
      ∃ k, k < N ∧ i.val = cyc_slot N s.cur_thrd k ∧
        ∀ k', k' < k → ∀ h : cyc_slot N s.cur_thrd k' < N,
          elig ⟨cyc_slot N s.cur_thrd k', h⟩ = false) ∧
    ready_run 3 3 abc_global.sched = [0, 1, 2] := by
  refine ⟨⟨rfl, rfl⟩, ?_, by decide⟩
  intro i hi
  exact dispatch_first_aux_spec elig hN N s.cur_thrd i hi

/-- Claim C5 witness. -/
theorem claim_C5_witness :
    (3 : Nat) < UINT_MOD ∧ ready_run 3 3 abc_global.sched = [0, 1, 2] := by
  have h := claim_C5 (N := 3) (by decide) abc_global.sched (fun _ => true)
  exact ⟨by decide, h.2.2⟩

/-- Subtracting a subset's cardinality: counting the elements of `p` not
in `q` when `q` implies `p`. -/
theorem card_filter_sub {α : Type} [Fintype α] [DecidableEq α]
    (p q : α → Prop) [DecidablePred p] [DecidablePred q]
    (h : ∀ a, q a → p a) :
    (Finset.univ.filter fun a => p a ∧ ¬q a).card =
      (Finset.univ.filter p).card - (Finset.univ.filter q).card := by
  have hset : (Finset.univ.filter fun a => p a ∧ ¬q a) =
      Finset.univ.filter p \ Finset.univ.filter q := by
    ext a
    simp [Finset.mem_filter, Finset.mem_sdiff]
  rw [hset, Finset.card_sdiff]
  intro a ha
  simp only [Finset.mem_filter, Finset.mem_univ, true_and] at ha ⊢
  exact h a ha

/-- The fold of `started_depth_loop` computes an upper bound of the
accumulator and the scanned started depths, attained by one of them. -/
theorem started_depth_loop_spec {N : Nat} (s : coop_sched_ctx_t N)
    (l : List (Fin N)) :
    ∀ d : Nat,
      d ≤ started_depth_loop s l d ∧
      (∀ i ∈ l, _IS_STARTED (s.thrds i).state = true →
        (s.thrds i).depth ≤ started_depth_loop s l d) ∧
      (started_depth_loop s l d = d ∨
        ∃ i ∈ l, _IS_STARTED (s.thrds i).state = true ∧
          (s.thrds i).depth = started_depth_loop s l d) := by
  induction l with
  | nil => exact fun d => ⟨le_refl d, fun i hi => absurd hi (List.not_mem_nil i), Or.inl rfl⟩
  | cons a t ih =>
    intro d
    rw [started_depth_loop]
    by_cases ha : _IS_STARTED (s.thrds a).state = true ∧ d < (s.thrds a).depth
    · rw [if_pos ha]
      obtain ⟨h1, h2, h3⟩ := ih (s.thrds a).depth
      refine ⟨le_trans (le_of_lt ha.2) h1, ?_, ?_⟩
      · intro i hi hst
        rcases List.mem_cons.mp hi with rfl | hit
        · exact h1
        · exact h2 i hit hst
      · rcases h3 with h3 | ⟨i, hit, hsti, hdi⟩
        · exact Or.inr ⟨a, List.mem_cons_self a t, ha.1, h3.symm ▸ rfl⟩
        · exact Or.inr ⟨i, List.mem_cons_of_mem a hit, hsti, hdi⟩
    · rw [if_neg ha]
      obtain ⟨h1, h2, h3⟩ := ih d
      refine ⟨h1, ?_, ?_⟩
      · intro i hi hst
        rcases List.mem_cons.mp hi with rfl | hit
        · have : ¬d < (s.thrds i).depth := fun hlt => ha ⟨hst, hlt⟩
          exact le_trans (le_of_not_lt this) h1
        · exact h2 i hit hst
      · rcases h3 with h3 | ⟨i, hit, hsti, hdi⟩
        · exact Or.inl h3
        · exact Or.inr ⟨i, List.mem_cons_of_mem a hit, hsti, hdi⟩

/-- State part of the hole-clearing loop: cleared slots, counter
decrements, untouched scalar fields. -/
theorem clear_holes_loop_state {N : Nat} (d : Nat) (l : List (Fin N))
    (hnd : l.Nodup) (s : coop_sched_ctx_t N) (u : Nat) :
    (∀ j, (clear_holes_loop d l (s, u)).1.thrds j =
      if j ∈ l ∧ (s.thrds j).state = .HOLE ∧ d + 1 ≤ (s.thrds j).depth then
        { s.thrds j with state := .EMPTY }
      else s.thrds j) ∧
    (clear_holes_loop d l (s, u)).1.busy_n =
      s.busy_n - l.countP
        (fun j => decide ((s.thrds j).state = .HOLE ∧ d + 1 ≤ (s.thrds j).depth)) ∧
    (clear_holes_loop d l (s, u)).1.hole_n =
      s.hole_n - l.countP
        (fun j => decide ((s.thrds j).state = .HOLE ∧ d + 1 ≤ (s.thrds j).depth)) ∧
    (clear_holes_loop d l (s, u)).1.cur_thrd = s.cur_thrd ∧
    (clear_holes_loop d l (s, u)).1.idle_n = s.idle_n ∧
    (clear_holes_loop d l (s, u)).1.depth = s.depth ∧
    (clear_holes_loop d l (s, u)).1.exe_ctx = s.exe_ctx := by
  induction l generalizing s u with
  | nil => simp [clear_holes_loop]
  | cons a t ih =>
    have hat : a ∉ t := (List.nodup_cons.mp hnd).1
    have hndt : t.Nodup := (List.nodup_cons.mp hnd).2
    rw [clear_holes_loop]
    by_cases ha : (s.thrds a).state = .HOLE ∧ d + 1 ≤ (s.thrds a).depth
    · rw [if_pos ha]
      set s' : coop_sched_ctx_t N :=
        { s with
          thrds := Function.update s.thrds a { s.thrds a with state := .EMPTY },
          busy_n := s.busy_n - 1, hole_n := s.hole_n - 1 } with hs'
      obtain ⟨ihp, ihb, ihh, ihc, ihi, ihd, ihe⟩ :=
        ih hndt s' (if d + 1 = (s.thrds a).depth then a.val else u)
      have hagree : ∀ j ∈ t, s'.thrds j = s.thrds j := by
        intro j hj
        have : j ≠ a := fun h => hat (h ▸ hj)
        simp [hs', Function.update_noteq this]
      have hcnt : t.countP
          (fun j => decide ((s'.thrds j).state = .HOLE ∧ d + 1 ≤ (s'.thrds j).depth)) =
          t.countP
          (fun j => decide ((s.thrds j).state = .HOLE ∧ d + 1 ≤ (s.thrds j).depth)) := by
        apply List.countP_congr
        intro j hj
        rw [hagree j hj]
      refine ⟨?_, ?_, ?_, ?_, ?_, ?_, ?_⟩
      · intro j
        rw [ihp j]
        by_cases hja : j = a
        · subst hja
          simp [hs', hat, ha, Function.update_same]
        · have hj' : s'.thrds j = s.thrds j := by
            simp [hs', Function.update_noteq hja]
          rw [hj']
          by_cases hjt : j ∈ t
          · simp [hjt, hja]
          · have : j ∉ (a :: t) := by
              simp [hja, hjt]
            simp [hjt, this]
      · rw [ihb, hcnt]
        have : (s.thrds a).state = .HOLE ∧ d + 1 ≤ (s.thrds a).depth := ha
        rw [List.countP_cons_of_pos _ _ (by simpa using this)]
        simp only [hs']
        omega
      · rw [ihh, hcnt]
        rw [List.countP_cons_of_pos _ _ (by simpa using ha)]
        simp only [hs']
        omega
      · rw [ihc]
      · rw [ihi]
      · rw [ihd]
      · rw [ihe]
    · rw [if_neg ha]
      obtain ⟨ihp, ihb, ihh, ihc, ihi, ihd, ihe⟩ := ih hndt s u
      rw [List.countP_cons_of_neg _ _ (by simpa using ha)]
      refine ⟨?_, ihb, ihh, ihc, ihi, ihd, ihe⟩
      intro j
      rw [ihp j]
      by_cases hjt : j ∈ t
      · simp [hjt]
      · by_cases hja : j = a
        · subst hja
          simp [hjt, ha]
        · have : j ∉ (a :: t) := by simp [hja, hjt]
          simp [hjt, this]

/-- The unwind-target accumulator passes through when no scanned hole
sits exactly at depth `d + 1`. -/
theorem clear_holes_loop_unwnd_id {N : Nat} (d : Nat) (l : List (Fin N))
    (hnd : l.Nodup) (s : coop_sched_ctx_t N) (u : Nat)
    (h : ∀ j ∈ l, ¬((s.thrds j).state = .HOLE ∧ d + 1 = (s.thrds j).depth)) :
    (clear_holes_loop d l (s, u)).2 = u := by
  induction l generalizing s u with
  | nil => rfl
  | cons a t ih =>
    have hat : a ∉ t := (List.nodup_cons.mp hnd).1
    have hndt : t.Nodup := (List.nodup_cons.mp hnd).2
    rw [clear_holes_loop]
    by_cases ha : (s.thrds a).state = .HOLE ∧ d + 1 ≤ (s.thrds a).depth
    · rw [if_pos ha]
      have hne : ¬(d + 1 = (s.thrds a).depth) :=
        fun he => h a (List.mem_cons_self a t) ⟨ha.1, he⟩
      rw [if_neg hne]
      apply ih hndt
      intro j hj
      have hja : j ≠ a := fun he => hat (he ▸ hj)
      simpa [Function.update_noteq hja] using h j (List.mem_cons_of_mem a hj)
    · rw [if_neg ha]
      exact ih hndt s u fun j hj => h j (List.mem_cons_of_mem a hj)

/-- When exactly one scanned hole sits at depth `d + 1`, the loop returns
its index as unwind target. -/
theorem clear_holes_loop_unwnd_uniq {N : Nat} (d : Nat) (l : List (Fin N))
    (hnd : l.Nodup) (s : coop_sched_ctx_t N) (u : Nat) (j0 : Fin N)
    (hmem : j0 ∈ l)
    (hj0 : (s.thrds j0).state = .HOLE ∧ d + 1 = (s.thrds j0).depth)
    (huniq : ∀ j ∈ l, j ≠ j0 →
      ¬((s.thrds j).state = .HOLE ∧ d + 1 = (s.thrds j).depth)) :
    (clear_holes_loop d l (s, u)).2 = j0.val := by
  induction l generalizing s u with
  | nil => cases hmem
  | cons a t ih =>
    have hat : a ∉ t := (List.nodup_cons.mp hnd).1
    have hndt : t.Nodup := (List.nodup_cons.mp hnd).2
    rw [clear_holes_loop]
    by_cases haj : a = j0
    · subst haj
      rw [if_pos ⟨hj0.1, le_of_eq hj0.2⟩, if_pos hj0.2]
      apply clear_holes_loop_unwnd_id d t hndt
      intro j hj
      have hja : j ≠ a := fun he => hat (he ▸ hj)
      simpa [Function.update_noteq hja] using
        huniq j (List.mem_cons_of_mem a hj) hja
    · have hj0t : j0 ∈ t := by
        rcases List.mem_cons.mp hmem with h | h
        · exact absurd h.symm haj
        · exact h
      by_cases ha : (s.thrds a).state = .HOLE ∧ d + 1 ≤ (s.thrds a).depth
      · rw [if_pos ha]
        have hne : ¬(d + 1 = (s.thrds a).depth) :=
          fun he => huniq a (List.mem_cons_self a t) haj ⟨ha.1, he⟩
        rw [if_neg hne]
        apply ih hndt _ _ hj0t
        · have hj0a : j0 ≠ a := fun he => haj he.symm
          simpa [Function.update_noteq hj0a] using hj0
        · intro j hj hjj0
          have hja : j ≠ a := fun he => hat (he ▸ hj)
          simpa [Function.update_noteq hja] using
            huniq j (List.mem_cons_of_mem a hj) hjj0
      · rw [if_neg ha]
        exact ih hndt s u hj0t hj0
          fun j hj hjj0 => huniq j (List.mem_cons_of_mem a hj) hjj0

/-- `started_depth_loop` reads only the thread pool. -/
theorem started_depth_loop_congr {N : Nat} {s t : coop_sched_ctx_t N}
    (h : s.thrds = t.thrds) (l : List (Fin N)) :
    ∀ d, started_depth_loop s l d = started_depth_loop t l d := by
  induction l with
  | nil => intro d; rfl
  | cons a r ih =>
    intro d
    rw [started_depth_loop, started_depth_loop, h, ih]

/-- `started_max_depth` reads only the thread pool. -/
theorem started_max_depth_congr {N : Nat} {s t : coop_sched_ctx_t N}
    (h : s.thrds = t.thrds) : started_max_depth s = started_max_depth t :=
  started_depth_loop_congr h (List.finRange N) 0

/-- A `Finset` filter cardinality as a `countP` over `List.finRange`. -/
theorem card_filter_eq_countP {N : Nat} (p : Fin N → Prop) [DecidablePred p] :
    (Finset.univ.filter p).card =
      (List.finRange N).countP (fun j => decide (p j)) := by
  rw [List.countP_eq_length_filter]
  rw [← List.toFinset_finRange]
  rw [show ((List.finRange N).toFinset.filter p) =
      ((List.finRange N).filter (fun j => decide (p j))).toFinset from ?_]
  · exact List.toFinset_card_of_nodup ((List.nodup_finRange N).filter _)
  · ext j
    simp

/-- Full characterization of `_mark_unwind_thrds` for a topmost
terminating slot (state `RUN`, or `NEW` for a thread returning without
its first yield), assuming the remaining live depths form a permutation
of `{1..sched.depth - 1}`. -/
theorem mark_unwind_spec {N : Nat} (s : coop_sched_ctx_t N) (cur : Fin N)
    (hD : 1 ≤ s.depth)
    (hcs : (s.thrds cur).state = .RUN ∨ (s.thrds cur).state = .NEW)
    (hperm : depths_perm (mark_cur_empty cur s) (s.depth - 1)) :
    (_mark_unwind_thrds cur s).1.depth =
      started_max_depth (mark_cur_empty cur s) ∧
    started_max_depth (mark_cur_empty cur s) ≤ s.depth - 1 ∧
    (_mark_unwind_thrds cur s).1.thrds cur =
      { s.thrds cur with state := .EMPTY } ∧
    (∀ j, j ≠ cur → (s.thrds j).state = .HOLE →
      started_max_depth (mark_cur_empty cur s) + 1 ≤ (s.thrds j).depth →
      (_mark_unwind_thrds cur s).1.thrds j =
        { s.thrds j with state := .EMPTY }) ∧
    (∀ j, j ≠ cur →
      ¬((s.thrds j).state = .HOLE ∧
        started_max_depth (mark_cur_empty cur s) + 1 ≤ (s.thrds j).depth) →
      (_mark_unwind_thrds cur s).1.thrds j = s.thrds j) ∧
    (_mark_unwind_thrds cur s).1.busy_n =
      s.busy_n - 1 - (Finset.univ.filter fun j =>
        (s.thrds j).state = .HOLE ∧
        started_max_depth (mark_cur_empty cur s) + 1 ≤
          (s.thrds j).depth).card ∧
    (_mark_unwind_thrds cur s).1.hole_n =
      s.hole_n - (Finset.univ.filter fun j =>
        (s.thrds j).state = .HOLE ∧
        started_max_depth (mark_cur_empty cur s) + 1 ≤
          (s.thrds j).depth).card ∧
    (_mark_unwind_thrds cur s).1.cur_thrd = s.cur_thrd ∧
    (_mark_unwind_thrds cur s).1.idle_n = s.idle_n ∧
    (_mark_unwind_thrds cur s).1.exe_ctx = s.exe_ctx ∧
    (started_max_depth (mark_cur_empty cur s) + 1 < s.depth →
      ∃ j : Fin N, (s.thrds j).state = .HOLE ∧
        (s.thrds j).depth = started_max_depth (mark_cur_empty cur s) + 1 ∧
        (_mark_unwind_thrds cur s).2 = j.val) ∧
    (¬(started_max_depth (mark_cur_empty cur s) + 1 < s.depth) →
      (_mark_unwind_thrds cur s).2 = cur.val ∧
      ¬∃ j : Fin N, (s.thrds j).state = .HOLE ∧
        (s.thrds j).depth =
          started_max_depth (mark_cur_empty cur s) + 1) := by
  have hcurnh : (s.thrds cur).state ≠ .HOLE := by
    rcases hcs with h | h <;> simp [h]
  have hmj : ∀ j : Fin N, j ≠ cur →
      (mark_cur_empty cur s).thrds j = s.thrds j := by
    intro j hj
    simp [mark_cur_empty, Function.update_noteq hj]
  have hmc : (mark_cur_empty cur s).thrds cur =
      { s.thrds cur with state := .EMPTY } := by
    simp [mark_cur_empty]
  have hmdep : (mark_cur_empty cur s).depth = s.depth := rfl
  obtain ⟨hmd0, hmdub, hmdat⟩ :=
    started_depth_loop_spec (mark_cur_empty cur s) (List.finRange N) 0
  have hub : started_max_depth (mark_cur_empty cur s) ≤ s.depth - 1 := by
    rcases hmdat with h0 | ⟨i, _, hsti, hdi⟩
    · rw [started_max_depth, h0]
      omega
    · have hlive : LIVE ((mark_cur_empty cur s).thrds i) = true := by
        unfold LIVE
        rw [hsti]
        rfl
      have := (hperm.1 i hlive).2
      rw [started_max_depth, ← hdi]
      exact this
  have hstb : ∀ j, _IS_STARTED ((mark_cur_empty cur s).thrds j).state = true →
      ((mark_cur_empty cur s).thrds j).depth ≤
        started_max_depth (mark_cur_empty cur s) :=
    fun j hj => hmdub j (List.mem_finRange j) hj
  -- the clearing predicate over the marked state equals the one over `s`
  have hpred : ∀ j,
      (((mark_cur_empty cur s).thrds j).state = .HOLE ∧
        started_max_depth (mark_cur_empty cur s) + 1 ≤
          ((mark_cur_empty cur s).thrds j).depth) ↔
      ((s.thrds j).state = .HOLE ∧
        started_max_depth (mark_cur_empty cur s) + 1 ≤ (s.thrds j).depth) := by
    intro j
    by_cases hj : j = cur
    · subst hj
      rw [hmc]
      simp only []
      constructor
      · intro h
        cases h.1
      · intro h
        exact absurd h.1 hcurnh
    · rw [hmj j hj]
  have hcnteq : (List.finRange N).countP (fun j =>
        decide (((mark_cur_empty cur s).thrds j).state = .HOLE ∧
          started_max_depth (mark_cur_empty cur s) + 1 ≤
            ((mark_cur_empty cur s).thrds j).depth)) =
      (Finset.univ.filter fun j =>
        (s.thrds j).state = .HOLE ∧
        started_max_depth (mark_cur_empty cur s) + 1 ≤
          (s.thrds j).depth).card := by
    rw [card_filter_eq_countP]
    apply List.countP_congr
    intro j _
    rw [decide_eq_true_eq, decide_eq_true_eq]
    exact hpred j
  by_cases hgap : started_max_depth (mark_cur_empty cur s) + 1 < s.depth
  · -- a gap exists between the new top of stack and the old one:
    -- the hole-clearing loop runs
    have heq : _mark_unwind_thrds cur s =
        ({ (clear_holes_loop (started_max_depth (mark_cur_empty cur s))
              (List.finRange N) (mark_cur_empty cur s, cur.val)).1 with
            depth := started_max_depth (mark_cur_empty cur s) },
          (clear_holes_loop (started_max_depth (mark_cur_empty cur s))
            (List.finRange N) (mark_cur_empty cur s, cur.val)).2) := by
      rw [_mark_unwind_thrds]
      rw [if_pos (show started_max_depth (mark_cur_empty cur s) + 1 <
        (mark_cur_empty cur s).depth from hmdep ▸ hgap)]
    obtain ⟨hp, hb, hh, hcu, hid, hdp, hex⟩ :=
      clear_holes_loop_state (started_max_depth (mark_cur_empty cur s))
        (List.finRange N) (List.nodup_finRange N) (mark_cur_empty cur s) cur.val
    refine ⟨by rw [heq], hub, ?_, ?_, ?_, ?_, ?_, ?_, ?_, ?_, ?_, ?_⟩
    · rw [heq]
      show (clear_holes_loop (started_max_depth (mark_cur_empty cur s))
        (List.finRange N) (mark_cur_empty cur s, cur.val)).1.thrds cur =
        { s.thrds cur with state := .EMPTY }
      rw [hp cur, if_neg, hmc]
      rw [hmc]
      simp
    · intro j hj hhole hdep
      rw [heq]
      show (clear_holes_loop (started_max_depth (mark_cur_empty cur s))
        (List.finRange N) (mark_cur_empty cur s, cur.val)).1.thrds j =
        { s.thrds j with state := .EMPTY }
      rw [hp j, if_pos, hmj j hj]
      exact ⟨List.mem_finRange j, by rw [hmj j hj]; exact ⟨hhole, hdep⟩⟩
    · intro j hj hnot
      rw [heq]
      show (clear_holes_loop (started_max_depth (mark_cur_empty cur s))
        (List.finRange N) (mark_cur_empty cur s, cur.val)).1.thrds j =
        s.thrds j
      rw [hp j, if_neg, hmj j hj]
      intro hcond
      exact hnot ((hpred j).mp hcond.2)
    · rw [heq]
      show (clear_holes_loop (started_max_depth (mark_cur_empty cur s))
        (List.finRange N) (mark_cur_empty cur s, cur.val)).1.busy_n = _
      rw [hb, hcnteq]
      rfl
    · rw [heq]
      show (clear_holes_loop (started_max_depth (mark_cur_empty cur s))
        (List.finRange N) (mark_cur_empty cur s, cur.val)).1.hole_n = _
      rw [hh, hcnteq]
      rfl
    · rw [heq]
      show (clear_holes_loop (started_max_depth (mark_cur_empty cur s))
        (List.finRange N) (mark_cur_empty cur s, cur.val)).1.cur_thrd = _
      rw [hcu]
      rfl
    · rw [heq]
      show (clear_holes_loop (started_max_depth (mark_cur_empty cur s))
        (List.finRange N) (mark_cur_empty cur s, cur.val)).1.idle_n = _
      rw [hid]
      rfl
    · rw [heq]
      show (clear_holes_loop (started_max_depth (mark_cur_empty cur s))
        (List.finRange N) (mark_cur_empty cur s, cur.val)).1.exe_ctx = _
      rw [hex]
      rfl
    · intro _
      -- the hole exactly above the new top exists, is unique, and is the
      -- unwind target
      have hd1 : started_max_depth (mark_cur_empty cur s) + 1 ∈
          Finset.Icc 1 (s.depth - 1) := by
        rw [Finset.mem_Icc]
        omega
      obtain ⟨j, hjl, hjd⟩ := hperm.2.2 _ hd1
      have hjcur : j ≠ cur := by
        intro hje
        rw [hje, hmc] at hjl
        simp [LIVE, _IS_STARTED, _IS_IDLE, _IS_WAIT] at hjl
      have hjhole : ((mark_cur_empty cur s).thrds j).state = .HOLE := by
        have hl := hjl
        unfold LIVE at hl
        rcases Bool.or_eq_true_iff.mp hl with hst | hho
        · exfalso
          have := hstb j hst
          omega
        · exact of_decide_eq_true (by simpa using hho)
      refine ⟨j, by rw [← hmj j hjcur]; exact hjhole,
        by rw [← hmj j hjcur]; exact hjd, ?_⟩
      rw [heq]
      show (clear_holes_loop (started_max_depth (mark_cur_empty cur s))
        (List.finRange N) (mark_cur_empty cur s, cur.val)).2 = j.val
      apply clear_holes_loop_unwnd_uniq _ _ (List.nodup_finRange N) _ _ j
        (List.mem_finRange j) ⟨hjhole, hjd.symm⟩
      intro j' _ hj'
      intro hcond
      apply hj'
      have hjl' : LIVE ((mark_cur_empty cur s).thrds j') = true := by
        unfold LIVE
        rw [hcond.1]
        simp
      exact hperm.2.1 j' j hjl' hjl (by rw [hjd, hcond.2])
    · intro hno
      exact absurd hgap hno
  · -- no gap: the clearing loop is skipped
    have heq : _mark_unwind_thrds cur s =
        ({ mark_cur_empty cur s with
            depth := started_max_depth (mark_cur_empty cur s) }, cur.val) := by
      rw [_mark_unwind_thrds]
      rw [if_neg (show ¬(started_max_depth (mark_cur_empty cur s) + 1 <
        (mark_cur_empty cur s).depth) from hmdep ▸ hgap)]
    have hnoh : ∀ j : Fin N,
        ¬((s.thrds j).state = .HOLE ∧
          started_max_depth (mark_cur_empty cur s) + 1 ≤ (s.thrds j).depth) := by
      intro j ⟨hhole, hdep⟩
      have hjcur : j ≠ cur := fun hje => hcurnh (hje ▸ hhole)
      have hjl : LIVE ((mark_cur_empty cur s).thrds j) = true := by
        unfold LIVE
        rw [hmj j hjcur, hhole]
        simp
      have := (hperm.1 j hjl).2
      rw [hmj j hjcur] at this
      omega
    have hfe : (Finset.univ.filter fun j =>
        (s.thrds j).state = .HOLE ∧
        started_max_depth (mark_cur_empty cur s) + 1 ≤
          (s.thrds j).depth).card = 0 := by
      rw [Finset.card_eq_zero, Finset.filter_eq_empty_iff]
      intro j _
      exact hnoh j
    refine ⟨by rw [heq], hub, by rw [heq]; exact hmc,
      fun j hj hhole hdep => absurd ⟨hhole, hdep⟩ (hnoh j),
      fun j hj _ => by rw [heq]; exact hmj j hj, ?_, ?_, ?_, ?_, ?_, ?_, ?_⟩
    · rw [heq, hfe]
      rfl
    · rw [heq, hfe]
      rfl
    · rw [heq]
      rfl
    · rw [heq]
      rfl
    · rw [heq]
      rfl
    · intro hcontra
      exact absurd hcontra hgap
    · intro _
      refine ⟨by rw [heq], ?_⟩
      intro ⟨j, hjh, hjd⟩
      exact hnoh j ⟨hjh, le_of_eq hjd.symm⟩

/-- Removing a topmost running slot leaves the remaining live depths a
permutation of `{1..sched.depth - 1}`. -/
theorem perm_remove_top {N : Nat} (s : coop_sched_ctx_t N) (cur : Fin N)
    (hperm : depths_perm s s.depth)
    (hlive : LIVE (s.thrds cur) = true)
    (hdep : (s.thrds cur).depth = s.depth) :
    depths_perm (mark_cur_empty cur s) (s.depth - 1) := by
  have hmj : ∀ j : Fin N, j ≠ cur →
      (mark_cur_empty cur s).thrds j = s.thrds j := by
    intro j hj
    simp [mark_cur_empty, Function.update_noteq hj]
  have hmcne : LIVE ((mark_cur_empty cur s).thrds cur) = false := by
    simp [mark_cur_empty, LIVE, _IS_STARTED, _IS_IDLE, _IS_WAIT]
  refine ⟨?_, ?_, ?_⟩
  · intro i hi
    have hic : i ≠ cur := by
      intro he
      rw [he, hmcne] at hi
      cases hi
    rw [hmj i hic] at hi ⊢
    obtain ⟨h1, h2⟩ := hperm.1 i hi
    refine ⟨h1, ?_⟩
    rcases lt_or_eq_of_le h2 with h | h
    · omega
    · exfalso
      have := hperm.2.1 i cur hi hlive (by rw [h, hdep])
      exact hic this
  · intro i j hi hj hij
    have hic : i ≠ cur := by
      intro he
      rw [he, hmcne] at hi
      cases hi
    have hjc : j ≠ cur := by
      intro he
      rw [he, hmcne] at hj
      cases hj
    rw [hmj i hic] at hi
    rw [hmj j hjc] at hj
    rw [hmj i hic, hmj j hjc] at hij
    exact hperm.2.1 i j hi hj hij
  · intro d hd
    rw [Finset.mem_Icc] at hd
    obtain ⟨j, hjl, hjd⟩ := hperm.2.2 d (by rw [Finset.mem_Icc]; omega)
    have hjc : j ≠ cur := by
      intro he
      rw [he, hdep] at hjd
      omega
    exact ⟨j, by rw [hmj j hjc]; exact hjl, by rw [hmj j hjc]; exact hjd⟩

/-- A topmost termination handled by `_mark_unwind_thrds` re-establishes
the scheduler invariant; the new `sched.depth` is the recomputed one. -/
theorem mark_unwind_inv {N : Nat} (s : coop_sched_ctx_t N) (cur : Fin N)
    (hD : 1 ≤ s.depth)
    (hcs : (s.thrds cur).state = .RUN ∨ (s.thrds cur).state = .NEW)
    (hperm : depths_perm (mark_cur_empty cur s) (s.depth - 1))
    (hc : counters_ok s) :
    sched_inv (_mark_unwind_thrds cur s).1 := by
  obtain ⟨h1, h2, h3, h4, h5, h6, h7, h8, h9, h10, h11, h12⟩ :=
    mark_unwind_spec s cur hD hcs hperm
  have hcurne : (s.thrds cur).state ≠ .EMPTY := by
    rcases hcs with h | h <;> simp [h]
  have hcurnh : (s.thrds cur).state ≠ .HOLE := by
    rcases hcs with h | h <;> simp [h]
  have hcurni : (s.thrds cur).state ≠ .IDLE := by
    rcases hcs with h | h <;> simp [h]
  have hmj : ∀ j : Fin N, j ≠ cur →
      (mark_cur_empty cur s).thrds j = s.thrds j := by
    intro j hj
    simp [mark_cur_empty, Function.update_noteq hj]
  obtain ⟨_, hmdub, _⟩ :=
    started_depth_loop_spec (mark_cur_empty cur s) (List.finRange N) 0
  have hstb : ∀ j : Fin N, j ≠ cur → _IS_STARTED (s.thrds j).state = true →
      (s.thrds j).depth ≤ started_max_depth (mark_cur_empty cur s) := by
    intro j hj hst
    have := hmdub j (List.mem_finRange j) (by rw [hmj j hj]; exact hst)
    rw [hmj j hj] at this
    exact this
  -- the slot-wise state of the result
  have hstate : ∀ j : Fin N, ((_mark_unwind_thrds cur s).1.thrds j).state =
      (if j = cur ∨ ((s.thrds j).state = .HOLE ∧
          started_max_depth (mark_cur_empty cur s) + 1 ≤ (s.thrds j).depth)
        then .EMPTY else (s.thrds j).state) := by
    intro j
    by_cases hj : j = cur
    · subst hj
      rw [h3]
      simp
    · by_cases hcl : (s.thrds j).state = .HOLE ∧
          started_max_depth (mark_cur_empty cur s) + 1 ≤ (s.thrds j).depth
      · rw [h4 j hj hcl.1 hcl.2]
        simp [hj, hcl]
      · rw [h5 j hj hcl]
        simp [hj, hcl]
  have hdepthj : ∀ j : Fin N, ((_mark_unwind_thrds cur s).1.thrds j).depth =
      (s.thrds j).depth := by
    intro j
    by_cases hj : j = cur
    · subst hj
      rw [h3]
    · by_cases hcl : (s.thrds j).state = .HOLE ∧
          started_max_depth (mark_cur_empty cur s) + 1 ≤ (s.thrds j).depth
      · rw [h4 j hj hcl.1 hcl.2]
      · rw [h5 j hj hcl]
  have hqp : ∀ j : Fin N,
      (j = cur ∨ ((s.thrds j).state = .HOLE ∧
        started_max_depth (mark_cur_empty cur s) + 1 ≤ (s.thrds j).depth)) →
      ¬((s.thrds j).state == .EMPTY) = true := by
    intro j hq
    rcases hq with rfl | hq
    · simp [hcurne]
    · simp [hq.1]
  refine ⟨⟨?_, ?_, ?_⟩, ?_⟩
  · -- busy_n
    rw [h6]
    have hcard : count_slots (_mark_unwind_thrds cur s).1
        (fun t => !(t.state == .EMPTY)) =
        (Finset.univ.filter fun j => ¬((s.thrds j).state = .EMPTY) ∧
          ¬(j = cur ∨ ((s.thrds j).state = .HOLE ∧
            started_max_depth (mark_cur_empty cur s) + 1 ≤
              (s.thrds j).depth))).card := by
      unfold count_slots
      congr 1
      apply Finset.filter_congr
      intro j _
      dsimp only
      rw [hstate j]
      by_cases hq : j = cur ∨ ((s.thrds j).state = .HOLE ∧
          started_max_depth (mark_cur_empty cur s) + 1 ≤ (s.thrds j).depth)
      · rw [if_pos hq]
        simp [hq]
      · rw [if_neg hq]
        simp [hq]
    rw [hcard]
    have hsub := card_filter_sub (fun j : Fin N => ¬((s.thrds j).state = .EMPTY))
      (fun j => j = cur ∨ ((s.thrds j).state = .HOLE ∧
        started_max_depth (mark_cur_empty cur s) + 1 ≤ (s.thrds j).depth))
      (by
        intro j hq
        rcases hq with rfl | hq
        · exact hcurne
        · rw [hq.1]
          simp)
    rw [hsub]
    have hq1 : (Finset.univ.filter fun j : Fin N => j = cur ∨
        ((s.thrds j).state = .HOLE ∧
          started_max_depth (mark_cur_empty cur s) + 1 ≤
            (s.thrds j).depth)).card =
        1 + (Finset.univ.filter fun j : Fin N => (s.thrds j).state = .HOLE ∧
          started_max_depth (mark_cur_empty cur s) + 1 ≤
            (s.thrds j).depth).card := by
      rw [Finset.filter_or]
      rw [Finset.filter_eq']
      simp only [Finset.mem_univ, if_pos]
      rw [Finset.card_union_of_disjoint]
      · rw [Finset.card_singleton]
      · rw [Finset.disjoint_singleton_left, Finset.mem_filter]
        intro hcontra
        exact hcurnh hcontra.2.1
    rw [hq1]
    have hbusy : s.busy_n = count_slots s (fun t => !(t.state == .EMPTY)) := hc.1
    have hcs' : count_slots s (fun t => !(t.state == .EMPTY)) =
        (Finset.univ.filter fun j : Fin N => ¬((s.thrds j).state = .EMPTY)).card := by
      unfold count_slots
      congr 1
      apply Finset.filter_congr
      intro j _
      simp
    rw [hbusy, hcs']
    omega
  · -- hole_n
    rw [h7]
    have hcard : count_slots (_mark_unwind_thrds cur s).1
        (fun t => t.state == .HOLE) =
        (Finset.univ.filter fun j => (s.thrds j).state = .HOLE ∧
          ¬((s.thrds j).state = .HOLE ∧
            started_max_depth (mark_cur_empty cur s) + 1 ≤
              (s.thrds j).depth)).card := by
      unfold count_slots
      congr 1
      apply Finset.filter_congr
      intro j _
      dsimp only
      rw [hstate j]
      by_cases hq : j = cur ∨ ((s.thrds j).state = .HOLE ∧
          started_max_depth (mark_cur_empty cur s) + 1 ≤ (s.thrds j).depth)
      · rw [if_pos hq]
        simp only [beq_iff_eq]
        constructor
        · intro h
          cases h
        · intro h
          rcases hq with rfl | hq'
          · exact absurd h.1 hcurnh
          · exact absurd hq' h.2
      · rw [if_neg hq]
        simp only [beq_iff_eq]
        constructor
        · intro h
          refine ⟨h, ?_⟩
          intro hq'
          exact hq (Or.inr hq')
        · intro h
          exact h.1
    rw [hcard]
    have hsub := card_filter_sub (fun j : Fin N => (s.thrds j).state = .HOLE)
      (fun j => (s.thrds j).state = .HOLE ∧
        started_max_depth (mark_cur_empty cur s) + 1 ≤ (s.thrds j).depth)
      (fun j hq => hq.1)
    rw [hsub]
    have hhole : s.hole_n = count_slots s (fun t => t.state == .HOLE) := hc.2.1
    have hcs' : count_slots s (fun t => t.state == .HOLE) =
        (Finset.univ.filter fun j : Fin N => (s.thrds j).state = .HOLE).card := by
      unfold count_slots
      congr 1
      apply Finset.filter_congr
      intro j _
      simp
    rw [hhole, hcs']
  · -- idle_n
    rw [h9]
    have hcard : count_slots (_mark_unwind_thrds cur s).1
        (fun t => t.state == .IDLE) =
        count_slots s (fun t => t.state == .IDLE) := by
      unfold count_slots
      congr 1
      apply Finset.filter_congr
      intro j _
      dsimp only
      rw [hstate j]
      by_cases hq : j = cur ∨ ((s.thrds j).state = .HOLE ∧
          started_max_depth (mark_cur_empty cur s) + 1 ≤ (s.thrds j).depth)
      · rw [if_pos hq]
        simp only [beq_iff_eq]
        constructor
        · intro h
          cases h
        · intro h
          rcases hq with rfl | hq'
          · exact absurd h hcurni
          · rw [hq'.1] at h
            cases h
      · rw [if_neg hq]
    rw [hcard]
    exact hc.2.2
  · -- depths are a permutation of the new range
    rw [h1]
    refine ⟨?_, ?_, ?_⟩
    · intro i hi
      unfold LIVE at hi
      rw [hstate i] at hi
      by_cases hq : i = cur ∨ ((s.thrds i).state = .HOLE ∧
          started_max_depth (mark_cur_empty cur s) + 1 ≤ (s.thrds i).depth)
      · rw [if_pos hq] at hi
        simp [_IS_STARTED, _IS_IDLE, _IS_WAIT] at hi
      · rw [if_neg hq] at hi
        push_neg at hq
        have hic : i ≠ cur := hq.1
        have hlives : LIVE (s.thrds i) = true := hi
        have hlivem : LIVE ((mark_cur_empty cur s).thrds i) = true := by
          rw [hmj i hic]
          exact hlives
        obtain ⟨hb1, _⟩ := hperm.1 i hlivem
        rw [hmj i hic] at hb1
        rw [hdepthj i]
        refine ⟨hb1, ?_⟩
        unfold LIVE at hlives
        rcases Bool.or_eq_true_iff.mp hlives with hst | hho
        · exact hstb i hic hst
        · have hhole : (s.thrds i).state = .HOLE :=
            of_decide_eq_true (by simpa using hho)
          have := hq.2 hhole
          omega
    · intro i j hi hj hij
      unfold LIVE at hi hj
      rw [hstate i] at hi
      rw [hstate j] at hj
      rw [hdepthj i, hdepthj j] at hij
      by_cases hqi : i = cur ∨ ((s.thrds i).state = .HOLE ∧
          started_max_depth (mark_cur_empty cur s) + 1 ≤ (s.thrds i).depth)
      · rw [if_pos hqi] at hi
        simp [_IS_STARTED, _IS_IDLE, _IS_WAIT] at hi
      · by_cases hqj : j = cur ∨ ((s.thrds j).state = .HOLE ∧
            started_max_depth (mark_cur_empty cur s) + 1 ≤ (s.thrds j).depth)
        · rw [if_pos hqj] at hj
          simp [_IS_STARTED, _IS_IDLE, _IS_WAIT] at hj
        · rw [if_neg hqi] at hi
          rw [if_neg hqj] at hj
          push_neg at hqi hqj
          have hlmi : LIVE ((mark_cur_empty cur s).thrds i) = true := by
            rw [hmj i hqi.1]
            exact hi
          have hlmj : LIVE ((mark_cur_empty cur s).thrds j) = true := by
            rw [hmj j hqj.1]
            exact hj
          apply hperm.2.1 i j hlmi hlmj
          rw [hmj i hqi.1, hmj j hqj.1]
          exact hij
    · intro d hd
      rw [Finset.mem_Icc] at hd
      have hub : started_max_depth (mark_cur_empty cur s) ≤ s.depth - 1 := by
        obtain ⟨_, _, hmdat⟩ :=
          started_depth_loop_spec (mark_cur_empty cur s) (List.finRange N) 0
        rcases hmdat with h0 | ⟨i, _, hsti, hdi⟩
        · rw [started_max_depth, h0]
          omega
        · have hlive : LIVE ((mark_cur_empty cur s).thrds i) = true := by
            unfold LIVE
            rw [hsti]
            rfl
          have := (hperm.1 i hlive).2
          rw [started_max_depth, ← hdi]
          exact this
      obtain ⟨j, hjl, hjd⟩ := hperm.2.2 d (by rw [Finset.mem_Icc]; omega)
      have hjc : j ≠ cur := by
        intro he
        rw [he] at hjl
        simp [mark_cur_empty, LIVE, _IS_STARTED, _IS_IDLE, _IS_WAIT] at hjl
      rw [hmj j hjc] at hjl hjd
      have hnotcl : ¬((s.thrds j).state = .HOLE ∧
          started_max_depth (mark_cur_empty cur s) + 1 ≤ (s.thrds j).depth) := by
        intro hcl
        omega
      refine ⟨j, ?_, ?_⟩
      · unfold LIVE
        rw [hstate j, if_neg (by
          intro hq
          rcases hq with rfl | hq'
          · exact hjc rfl
          · exact hnotcl hq')]
        exact hjl
      · rw [hdepthj j]
        exact hjd

/-- Claim C1: when a thread's entry routine returns — if the slot's depth
is strictly below `sched.depth`, the slot becomes `HOLE` and `hole_n` is
incremented, with no slot freed and no stack reclaimed; if it equals
`sched.depth` (topmost), the slot becomes `EMPTY` and `busy_n` is
decremented, the new top depth is the maximum depth over still-started
slots, every `HOLE` slot deeper than that maximum becomes `EMPTY`
decrementing both `busy_n` and `hole_n`, `sched.depth` is set to the new
maximum, and the unwind target is the `HOLE` slot sitting exactly one
above the new top when such a hole exists, the terminating slot itself
otherwise. -/
theorem claim_C1 {N : Nat} (s : coop_sched_ctx_t N) (cur : Fin N)
    (hinv : sched_inv s) (hrun : (s.thrds cur).state = .RUN) :
    ((s.thrds cur).depth < s.depth →
      thrd_terminate cur s =
        ({ s with
            thrds := Function.update s.thrds cur
              { s.thrds cur with state := .HOLE },
            hole_n := s.hole_n + 1 }, none)) ∧
    ((s.thrds cur).depth = s.depth →
      ((thrd_terminate cur s).1.thrds cur).state = .EMPTY ∧
      (∀ j, j ≠ cur → _IS_STARTED (s.thrds j).state = true →
        (s.thrds j).depth ≤ started_max_depth (mark_cur_empty cur s)) ∧
      (started_max_depth (mark_cur_empty cur s) = 0 ∨
        ∃ j, j ≠ cur ∧ _IS_STARTED (s.thrds j).state = true ∧
          (s.thrds j).depth = started_max_depth (mark_cur_empty cur s)) ∧
      (∀ j, (s.thrds j).state = .HOLE →
        started_max_depth (mark_cur_empty cur s) < (s.thrds j).depth →
        ((thrd_terminate cur s).1.thrds j).state = .EMPTY) ∧
      (∀ j, j ≠ cur →
        ¬((s.thrds j).state = .HOLE ∧
          started_max_depth (mark_cur_empty cur s) < (s.thrds j).depth) →
        (thrd_terminate cur s).1.thrds j = s.thrds j) ∧
      (thrd_terminate cur s).1.busy_n =
        s.busy_n - 1 - (Finset.univ.filter fun j =>
          (s.thrds j).state = .HOLE ∧
          started_max_depth (mark_cur_empty cur s) + 1 ≤
            (s.thrds j).depth).card ∧
      (thrd_terminate cur s).1.hole_n =
        s.hole_n - (Finset.univ.filter fun j =>
          (s.thrds j).state = .HOLE ∧
          started_max_depth (mark_cur_empty cur s) + 1 ≤
            (s.thrds j).depth).card ∧
      (thrd_terminate cur s).1.depth =
        started_max_depth (mark_cur_empty cur s) ∧
      (∀ j, (s.thrds j).state = .HOLE →
        (s.thrds j).depth = started_max_depth (mark_cur_empty cur s) + 1 →
        (thrd_terminate cur s).2 = some j.val) ∧
      ((¬∃ j, (s.thrds j).state = .HOLE ∧
          (s.thrds j).depth = started_max_depth (mark_cur_empty cur s) + 1) →
        (thrd_terminate cur s).2 = some cur.val)) := by
  constructor
  · intro hlt
    rw [thrd_terminate, if_pos hlt]
  · intro hdep
    have hlive : LIVE (s.thrds cur) = true := by
      unfold LIVE
      rw [hrun]
      rfl
    have hD : 1 ≤ s.depth := by
      have := (hinv.2.1 cur hlive).1
      omega
    have hperm' := perm_remove_top s cur hinv.2 hlive hdep
    obtain ⟨h1, h2, h3, h4, h5, h6, h7, h8, h9, h10, h11, h12⟩ :=
      mark_unwind_spec s cur hD (Or.inl hrun) hperm'
    have hterm : thrd_terminate cur s =
        ((_mark_unwind_thrds cur s).1, some (_mark_unwind_thrds cur s).2) := by
      rw [thrd_terminate, if_neg (by omega)]
    obtain ⟨_, hmdub, hmdat⟩ :=
      started_depth_loop_spec (mark_cur_empty cur s) (List.finRange N) 0
    have hmj : ∀ j : Fin N, j ≠ cur →
        (mark_cur_empty cur s).thrds j = s.thrds j := by
      intro j hj
      simp [mark_cur_empty, Function.update_noteq hj]
    refine ⟨?_, ?_, ?_, ?_, ?_, ?_, ?_, ?_, ?_, ?_⟩
    · rw [hterm]
      rw [h3]
    · intro j hj hst
      have := hmdub j (List.mem_finRange j) (by rw [hmj j hj]; exact hst)
      rw [hmj j hj] at this
      exact this
    · rcases hmdat with h0 | ⟨i, _, hsti, hdi⟩
      · exact Or.inl h0
      · have hic : i ≠ cur := by
          intro he
          rw [he] at hsti
          simp [mark_cur_empty, _IS_STARTED, _IS_IDLE, _IS_WAIT] at hsti
        rw [hmj i hic] at hsti hdi
        exact Or.inr ⟨i, hic, hsti, hdi⟩
    · intro j hole hdj
      have hjc : j ≠ cur := by
        intro he
        rw [he, hrun] at hole
        cases hole
      rw [hterm]
      rw [h4 j hjc hole hdj]
    · intro j hj hnot
      rw [hterm]
      exact h5 j hj hnot
    · rw [hterm]
      exact h6
    · rw [hterm]
      exact h7
    · rw [hterm]
      exact h1
    · intro j hole hdj
      by_cases hgap : started_max_depth (mark_cur_empty cur s) + 1 < s.depth
      · obtain ⟨j0, hj0h, hj0d, hj0u⟩ := h11 hgap
        have hjj0 : j = j0 := by
          apply hinv.2.2.1 j j0
          · unfold LIVE
            rw [hole]
            simp
          · unfold LIVE
            rw [hj0h]
            simp
          · rw [hdj, hj0d]
        rw [hterm, hjj0, hj0u]
      · exact absurd ⟨j, hole, hdj⟩ (h12 hgap).2
    · intro hno
      by_cases hgap : started_max_depth (mark_cur_empty cur s) + 1 < s.depth
      · obtain ⟨j0, hj0h, hj0d, _⟩ := h11 hgap
        exact absurd ⟨j0, hj0h, hj0d⟩ hno
      · rw [hterm, (h12 hgap).1]

/-- Claim C1 witness: in the hole-coalescing scenario, terminating the
topmost thread 2 empties it, clears the buried hole 1 and unwinds at
slot 1. -/
theorem claim_C1_witness :
    sched_inv c1_example ∧
    (c1_example.thrds 2).state = .RUN ∧
    (c1_example.thrds 2).depth = c1_example.depth ∧
    ((thrd_terminate 2 c1_example).1.thrds 2).state = .EMPTY ∧
    ((thrd_terminate 2 c1_example).1.thrds 1).state = .EMPTY ∧
    (thrd_terminate 2 c1_example).1.depth = 1 ∧
    (thrd_terminate 2 c1_example).2 = some 1 := by
  have h := claim_C1 c1_example 2 (by decide) (by decide)
  obtain ⟨hA, hB⟩ := h
  obtain ⟨hb1, _, _, hb4, _, _, _, hb8, hb9, _⟩ := hB (by decide)
  refine ⟨by decide, by decide, by decide, hb1, ?_, ?_, ?_⟩
  · exact hb4 1 (by decide) (by decide)
  · rw [hb8]
    decide
  · exact hb9 1 (by decide) (by decide)

/-- Cardinality of a filter after a pointwise function update. -/
theorem card_filter_update_point {α β : Type} [Fintype α] [DecidableEq α]
    (f : α → β) (i : α) (t : β) (p : β → Prop) [DecidablePred p] :
    (Finset.univ.filter fun j => p (Function.update f i t j)).card =
      (Finset.univ.filter fun j => p (f j)).card +
        (if p t then 1 else 0) - (if p (f i) then 1 else 0) := by
  have hsplit : ∀ g : α → β,
      (Finset.univ.filter fun j => p (g j)).card =
        ((Finset.univ.erase i).filter fun j => p (g j)).card +
          (if p (g i) then 1 else 0) := by
    intro g
    have he : ((Finset.univ.erase i).filter fun j => p (g j)) =
        (Finset.univ.filter fun j => p (g j)).erase i :=
      Finset.filter_erase (fun j => p (g j)) i Finset.univ
    rw [he]
    by_cases hp : p (g i)
    · have hmem : i ∈ Finset.univ.filter fun j => p (g j) := by
        simp [hp]
      rw [Finset.card_erase_of_mem hmem, if_pos hp]
      have := Finset.card_pos.mpr ⟨i, hmem⟩
      omega
    · have hmem : i ∉ Finset.univ.filter fun j => p (g j) := by
        simp [hp]
      rw [Finset.erase_eq_of_not_mem hmem, if_neg hp, Nat.add_zero]
  have herase :
      ((Finset.univ.erase i).filter fun j => p (Function.update f i t j)).card =
        ((Finset.univ.erase i).filter fun j => p (f j)).card := by
    congr 1
    apply Finset.filter_congr
    intro j hj
    rw [Function.update_noteq (Finset.ne_of_mem_erase hj)]
  rw [hsplit (Function.update f i t), hsplit f, herase,
    Function.update_same]
  by_cases hpt : p t <;> by_cases hpf : p (f i) <;> simp [hpt, hpf]

/-- Slot counts are invariant under pointwise-equal predicates. -/
theorem count_slots_congr {N : Nat} {s s' : coop_sched_ctx_t N}
    (p : coop_thrd_ctx_t → Bool)
    (h : ∀ j, p (s'.thrds j) = p (s.thrds j)) :
    count_slots s' p = count_slots s p := by
  unfold count_slots
  congr 1
  apply Finset.filter_congr
  intro j _
  rw [h j]

/-- Slot count after updating a single slot. -/
theorem count_slots_update {N : Nat} {s s' : coop_sched_ctx_t N}
    {i : Fin N} {t : coop_thrd_ctx_t}
    (hthrds : s'.thrds = Function.update s.thrds i t)
    (p : coop_thrd_ctx_t → Bool) :
    count_slots s' p =
      count_slots s p + (if p t = true then 1 else 0) -
        (if p (s.thrds i) = true then 1 else 0) := by
  unfold count_slots
  simp only [hthrds]
  exact card_filter_update_point s.thrds i t (fun b => p b = true)

/-- `depths_perm` depends only on the liveness and the depth of each
slot. -/
theorem depths_perm_congr {N : Nat} {s s' : coop_sched_ctx_t N} {D : Nat}
    (hl : ∀ j, LIVE (s'.thrds j) = LIVE (s.thrds j))
    (hd : ∀ j, LIVE (s'.thrds j) = true →
      (s'.thrds j).depth = (s.thrds j).depth)
    (hperm : depths_perm s D) : depths_perm s' D := by
  refine ⟨?_, ?_, ?_⟩
  · intro i hi
    rw [hd i hi]
    exact hperm.1 i ((hl i) ▸ hi)
  · intro i j hi hj hij
    rw [hd i hi, hd j hj] at hij
    exact hperm.2.1 i j ((hl i) ▸ hi) ((hl j) ▸ hj) hij
  · intro d hdm
    obtain ⟨j, hjl, hjd⟩ := hperm.2.2 d hdm
    have hjl' : LIVE (s'.thrds j) = true := (hl j).trans hjl
    exact ⟨j, hjl', by rw [hd j hjl']; exact hjd⟩

/-- Making a previously non-live slot live at the new top depth `D`
extends a permutation of `{1..D-1}` to one of `{1..D}`. -/
theorem depths_perm_add_top {N : Nat} {s s' : coop_sched_ctx_t N}
    {i : Fin N} {D : Nat}
    (hperm : depths_perm s (D - 1)) (hD : 1 ≤ D)
    (hnl : LIVE (s.thrds i) = false)
    (ht : ∀ j, j ≠ i → s'.thrds j = s.thrds j)
    (hl : LIVE (s'.thrds i) = true)
    (hd : (s'.thrds i).depth = D) :
    depths_perm s' D := by
  refine ⟨?_, ?_, ?_⟩
  · intro j hj
    by_cases hji : j = i
    · subst hji
      rw [hd]
      omega
    · rw [ht j hji] at hj ⊢
      obtain ⟨h1, h2⟩ := hperm.1 j hj
      exact ⟨h1, by omega⟩
  · intro a b ha hb hab
    by_cases hai : a = i <;> by_cases hbi : b = i
    · rw [hai, hbi]
    · subst hai
      rw [ht b hbi] at hb
      rw [hd, ht b hbi] at hab
      have := (hperm.1 b hb).2
      omega
    · subst hbi
      rw [ht a hai] at ha
      rw [hd, ht a hai] at hab
      have := (hperm.1 a ha).2
      omega
    · rw [ht a hai] at ha
      rw [ht b hbi] at hb
      rw [ht a hai, ht b hbi] at hab
      exact hperm.2.1 a b ha hb hab
  · intro d hdm
    rw [Finset.mem_Icc] at hdm
    by_cases hdD : d = D
    · exact ⟨i, hl, by rw [hd, hdD]⟩
    · obtain ⟨j, hjl, hjd⟩ := hperm.2.2 d (by rw [Finset.mem_Icc]; omega)
      have hji : j ≠ i := by
        intro he
        rw [he, hnl] at hjl
        cases hjl
      exact ⟨j, by rw [ht j hji]; exact hjl, by rw [ht j hji]; exact hjd⟩

/-- Additive form of `count_slots_update` (no truncated subtraction). -/
theorem count_slots_update_add {N : Nat} {s s' : coop_sched_ctx_t N}
    {i : Fin N} {t : coop_thrd_ctx_t}
    (hthrds : s'.thrds = Function.update s.thrds i t)
    (p : coop_thrd_ctx_t → Bool) :
    count_slots s' p + (if p (s.thrds i) = true then 1 else 0) =
      count_slots s p + (if p t = true then 1 else 0) := by
  have hle : (if p (s.thrds i) = true then 1 else 0) ≤ count_slots s p := by
    by_cases hp : p (s.thrds i) = true
    · rw [if_pos hp]
      exact Finset.card_pos.mpr ⟨i, by simp [count_slots, hp]⟩
    · rw [if_neg hp]
      exact Nat.zero_le _
  rw [count_slots_update hthrds p]
  omega

/-- `counters_ok` after a single-slot update, given the counters moved by
the difference of the old and new slot states. -/
theorem counters_ok_update {N : Nat} {s s' : coop_sched_ctx_t N}
    {i : Fin N} {t : coop_thrd_ctx_t}
    (hthrds : s'.thrds = Function.update s.thrds i t)
    (hc : counters_ok s)
    (hb : s'.busy_n + (if (!((s.thrds i).state == .EMPTY)) = true then 1 else 0) =
        s.busy_n + (if (!(t.state == .EMPTY)) = true then 1 else 0))
    (hh : s'.hole_n + (if ((s.thrds i).state == .HOLE) = true then 1 else 0) =
        s.hole_n + (if (t.state == .HOLE) = true then 1 else 0))
    (hi : s'.idle_n + (if ((s.thrds i).state == .IDLE) = true then 1 else 0) =
        s.idle_n + (if (t.state == .IDLE) = true then 1 else 0)) :
    counters_ok s' := by
  obtain ⟨hb0, hh0, hi0⟩ := hc
  refine ⟨?_, ?_, ?_⟩
  · have := count_slots_update_add hthrds (fun tt => !(tt.state == .EMPTY))
    omega
  · have := count_slots_update_add hthrds (fun tt => tt.state == .HOLE)
    omega
  · have := count_slots_update_add hthrds (fun tt => tt.state == .IDLE)
    omega

/-- `depths_perm` after a single-slot update preserving liveness and (for
live slots) depth. -/
theorem depths_perm_update_point {N : Nat} {s s' : coop_sched_ctx_t N}
    {i : Fin N} {t : coop_thrd_ctx_t} {D : Nat}
    (hthrds : s'.thrds = Function.update s.thrds i t)
    (hlive : LIVE t = LIVE (s.thrds i))
    (hdep : LIVE t = true → t.depth = (s.thrds i).depth)
    (hperm : depths_perm s D) : depths_perm s' D := by
  apply depths_perm_congr ?_ ?_ hperm
  · intro j
    rw [hthrds]
    by_cases hj : j = i
    · subst hj
      rw [Function.update_same]
      exact hlive
    · rw [Function.update_noteq hj]
  · intro j hl
    rw [hthrds] at hl ⊢
    by_cases hj : j = i
    · subst hj
      rw [Function.update_same] at hl ⊢
      exact hdep hl
    · rw [Function.update_noteq hj]

/-- Every step of the scheduler preserves the (mode-indexed) invariant:
correct counters and live depths forming a permutation of
`{1..sched.depth}` (of `{1..sched.depth - 1}` plus the mid-entry slot on
top during stack carving). -/
theorem step_preserves_inv {N : Nat} {m : Option (Fin N)}
    {s : coop_sched_ctx_t N} {m' : Option (Fin N)} {s' : coop_sched_ctx_t N}
    (hstep : coop_sched_step N m s m' s') (hinv : mode_inv m s) :
    mode_inv m' s' := by
  cases hstep with
  | advance s => exact hinv
  | idle_promote s i h =>
    obtain ⟨hc, hperm⟩ := hinv
    have hthrds : (sched_idle_promote i s).thrds =
        Function.update s.thrds i { s.thrds i with state := .RUN } := rfl
    have hipos : 1 ≤ s.idle_n := by
      rw [hc.2.2]
      exact Finset.card_pos.mpr ⟨i, by simp [count_slots, h]⟩
    refine ⟨counters_ok_update hthrds hc ?_ ?_ ?_, ?_⟩
    · simp [h, sched_idle_promote, set_thrd_state]
    · simp [h, sched_idle_promote, set_thrd_state]
    · simp [h, sched_idle_promote, set_thrd_state]
      omega
    · exact depths_perm_update_point hthrds (by simp [LIVE, _IS_STARTED, _IS_IDLE, _IS_WAIT, h])
        (fun _ => rfl) hperm
  | wait_timeout s i now h =>
    obtain ⟨hc, hperm⟩ := hinv
    unfold sched_wait_case
    by_cases hcond : (s.thrds i).wait_flgs_inf = true ∨
        ¬COOP_IS_TICK_OVER now (s.thrds i).wait_to = true
    · rw [if_pos hcond]
      exact ⟨hc, hperm⟩
    · rw [if_neg hcond]
      have hthrds : (set_thrd_state i .RUN s).thrds =
          Function.update s.thrds i { s.thrds i with state := .RUN } := rfl
      refine ⟨counters_ok_update hthrds hc ?_ ?_ ?_, ?_⟩
      · simp [h, set_thrd_state]
      · simp [h, set_thrd_state]
      · simp [h, set_thrd_state]
      · exact depths_perm_update_point hthrds
          (by simp [LIVE, _IS_STARTED, _IS_IDLE, _IS_WAIT, h]) (fun _ => rfl) hperm
  | run_stamp s i now h =>
    obtain ⟨hc, hperm⟩ := hinv
    refine ⟨counters_ok_update (s := s) (i := i)
      (t := { s.thrds i with switch_tick := now }) rfl hc
      (by simp) (by simp) (by simp), ?_⟩
    exact depths_perm_update_point (s := s) (i := i)
      (t := { s.thrds i with switch_tick := now }) rfl
      (by simp [LIVE]) (fun _ => rfl) hperm
  | sched m s proc name stack_sz arg dflt hp hb =>
    by_cases hex : ∃ j : Fin N, (s.thrds j).state = .EMPTY
    · obtain ⟨j0, hj0, hleast⟩ := exists_least_fin _ hex
      have heq := sched_thread_loop_first (N := N) proc name stack_sz arg dflt
        (List.finRange N) (List.pairwise_lt_finRange N) s j0 (List.mem_finRange j0)
        hj0 (fun j hj _ => hleast j hj)
      rw [heq]
      have hthrds : (thread_init_slot proc name stack_sz arg dflt j0 s).thrds =
          Function.update s.thrds j0
            { s.thrds j0 with
              proc := proc, name := name,
              stack_sz := if stack_sz = 0 then dflt else stack_sz,
              arg := arg, state := .NEW, depth := 0,
              exe_ctx := 0, entry_ctx := 0 } := rfl
      cases m with
      | none =>
        obtain ⟨hc, hperm⟩ := hinv
        refine ⟨counters_ok_update hthrds hc ?_ ?_ ?_, ?_⟩
        · simp [hj0, thread_init_slot]
        · simp [hj0, thread_init_slot]
        · simp [hj0, thread_init_slot]
        · exact depths_perm_update_point hthrds
            (by simp [LIVE, _IS_STARTED, _IS_IDLE, _IS_WAIT, hj0] <;> decide)
            (by intro hl; simp [LIVE, _IS_STARTED, _IS_IDLE, _IS_WAIT] at hl) hperm
      | some cur =>
        obtain ⟨hc, hperm, hnew, hdep, hD⟩ := hinv
        have hcur0 : cur ≠ j0 := by
          intro he
          rw [he, hj0] at hnew
          cases hnew
        refine ⟨counters_ok_update hthrds hc ?_ ?_ ?_, ?_, ?_, ?_, ?_⟩
        · simp [hj0, thread_init_slot]
        · simp [hj0, thread_init_slot]
        · simp [hj0, thread_init_slot]
        · exact depths_perm_update_point hthrds
            (by simp [LIVE, _IS_STARTED, _IS_IDLE, _IS_WAIT, hj0] <;> decide)
            (by intro hl; simp [LIVE, _IS_STARTED, _IS_IDLE, _IS_WAIT] at hl) hperm
        · rw [show (thread_init_slot proc name stack_sz arg dflt j0 s).thrds cur =
            s.thrds cur by rw [hthrds, Function.update_noteq hcur0]]
          exact hnew
        · rw [show (thread_init_slot proc name stack_sz arg dflt j0 s).thrds cur =
            s.thrds cur by rw [hthrds, Function.update_noteq hcur0]]
          exact hdep
        · exact hD
    · push_neg at hex
      rw [sched_thread_loop_no_empty proc name stack_sz arg dflt
        (List.finRange N) s (fun j _ => hex j)]
      exact hinv
  | notify m s sem =>
    by_cases hex : ∃ j : Fin N, (s.thrds j).state = .WAIT ∧ (s.thrds j).sem_id = sem
    · obtain ⟨j0, hj0, hleast⟩ := exists_least_fin _ hex
      have heq : coop_notify N sem s = wake_slot j0 s :=
        notify_loop_first sem (List.finRange N) (List.pairwise_lt_finRange N) s j0
          (List.mem_finRange j0) hj0 (fun j hj _ => hleast j hj)
      rw [heq]
      have hthrds : (wake_slot j0 s).thrds =
          Function.update s.thrds j0
            { s.thrds j0 with wait_flgs_notif := true, state := .RUN } := rfl
      cases m with
      | none =>
        obtain ⟨hc, hperm⟩ := hinv
        refine ⟨counters_ok_update hthrds hc ?_ ?_ ?_, ?_⟩
        · simp [hj0.1, wake_slot]
        · simp [hj0.1, wake_slot]
        · simp [hj0.1, wake_slot]
        · exact depths_perm_update_point hthrds
            (by simp [LIVE, _IS_STARTED, _IS_IDLE, _IS_WAIT, hj0.1])
            (fun _ => rfl) hperm
      | some cur =>
        obtain ⟨hc, hperm, hnew, hdep, hD⟩ := hinv
        have hcur0 : cur ≠ j0 := by
          intro he
          rw [he, hj0.1] at hnew
          cases hnew
        refine ⟨counters_ok_update hthrds hc ?_ ?_ ?_, ?_, ?_, ?_, ?_⟩
        · simp [hj0.1, wake_slot]
        · simp [hj0.1, wake_slot]
        · simp [hj0.1, wake_slot]
        · exact depths_perm_update_point hthrds
            (by simp [LIVE, _IS_STARTED, _IS_IDLE, _IS_WAIT, hj0.1])
            (fun _ => rfl) hperm
        · rw [show (wake_slot j0 s).thrds cur = s.thrds cur by
            rw [hthrds, Function.update_noteq hcur0]]
          exact hnew
        · rw [show (wake_slot j0 s).thrds cur = s.thrds cur by
            rw [hthrds, Function.update_noteq hcur0]]
          exact hdep
        · exact hD
    · have heq : coop_notify N sem s = s :=
        notify_loop_no_match sem (List.finRange N) s fun j _ hj => hex ⟨j, hj⟩
      rw [heq]
      exact hinv
  | notify_all m s sem =>
    have hth : ∀ j, (coop_notify_all N sem s).thrds j =
        if j ∈ List.finRange N ∧ (s.thrds j).state = .WAIT ∧
            (s.thrds j).sem_id = sem then
          { s.thrds j with wait_flgs_notif := true, state := .RUN }
        else s.thrds j :=
      fun j => notify_all_loop_thrds sem (List.finRange N) (List.nodup_finRange N) s j
    obtain ⟨f1, f2, f3, f4, f5, f6⟩ := notify_all_loop_fields sem (List.finRange N) s
    have g2 : (coop_notify_all N sem s).busy_n = s.busy_n := f2
    have g3 : (coop_notify_all N sem s).hole_n = s.hole_n := f3
    have g4 : (coop_notify_all N sem s).idle_n = s.idle_n := f4
    have g5 : (coop_notify_all N sem s).depth = s.depth := f5
    have hcnt : ∀ p : coop_thrd_ctx_t → Bool,
        (∀ u : coop_thrd_ctx_t,
          p { u with wait_flgs_notif := true, state := .RUN } = p u ∨
            u.state ≠ .WAIT) →
        count_slots (coop_notify_all N sem s) p = count_slots s p := by
      intro p hcase
      apply count_slots_congr
      intro j
      rw [hth j]
      by_cases hm : j ∈ List.finRange N ∧ (s.thrds j).state = .WAIT ∧
          (s.thrds j).sem_id = sem
      · rw [if_pos hm]
        rcases hcase (s.thrds j) with hok | hnw
        · exact hok
        · exact absurd hm.2.1 hnw
      · rw [if_neg hm]
    have hcnt_busy : count_slots (coop_notify_all N sem s)
        (fun tt => !(tt.state == .EMPTY)) =
        count_slots s (fun tt => !(tt.state == .EMPTY)) := by
      apply hcnt
      intro u
      by_cases hu : u.state = .WAIT
      · exact Or.inl (by simp [hu])
      · exact Or.inr hu
    have hcnt_hole : count_slots (coop_notify_all N sem s)
        (fun tt => tt.state == .HOLE) =
        count_slots s (fun tt => tt.state == .HOLE) := by
      apply hcnt
      intro u
      by_cases hu : u.state = .WAIT
      · exact Or.inl (by simp [hu])
      · exact Or.inr hu
    have hcnt_idle : count_slots (coop_notify_all N sem s)
        (fun tt => tt.state == .IDLE) =
        count_slots s (fun tt => tt.state == .IDLE) := by
      apply hcnt
      intro u
      by_cases hu : u.state = .WAIT
      · exact Or.inl (by simp [hu])
      · exact Or.inr hu
    have hpermc : ∀ D, depths_perm s D → depths_perm (coop_notify_all N sem s) D := by
      intro D
      apply depths_perm_congr
      · intro j
        rw [hth j]
        by_cases hm : j ∈ List.finRange N ∧ (s.thrds j).state = .WAIT ∧
            (s.thrds j).sem_id = sem
        · rw [if_pos hm]
          simp [LIVE, _IS_STARTED, _IS_IDLE, _IS_WAIT, hm.2.1]
        · rw [if_neg hm]
      · intro j _
        rw [hth j]
        by_cases hm : j ∈ List.finRange N ∧ (s.thrds j).state = .WAIT ∧
            (s.thrds j).sem_id = sem
        · rw [if_pos hm]
        · rw [if_neg hm]
    cases m with
    | none =>
      obtain ⟨⟨hb0, hh0, hi0⟩, hperm⟩ := hinv
      refine ⟨⟨?_, ?_, ?_⟩, ?_⟩
      · rw [hcnt_busy, g2]
        exact hb0
      · rw [hcnt_hole, g3]
        exact hh0
      · rw [hcnt_idle, g4]
        exact hi0
      · rw [g5]
        exact hpermc s.depth hperm
    | some cur =>
      obtain ⟨⟨hb0, hh0, hi0⟩, hperm, hnew, hdep, hD⟩ := hinv
      have hcurth : (coop_notify_all N sem s).thrds cur = s.thrds cur := by
        rw [hth cur, if_neg]
        intro hm
        rw [hnew] at hm
        cases hm.2.1
      refine ⟨⟨?_, ?_, ?_⟩, ?_, ?_, ?_, ?_⟩
      · rw [hcnt_busy, g2]
        exact hb0
      · rw [hcnt_hole, g3]
        exact hh0
      · rw [hcnt_idle, g4]
        exact hi0
      · rw [g5]
        exact hpermc (s.depth - 1) hperm
      · rw [hcurth]
        exact hnew
      · rw [hcurth, g5]
        exact hdep
      · rw [g5]
        exact hD
  | yield s i h =>
    obtain ⟨hc, hperm⟩ := hinv
    have hthrds : (set_thrd_state i .RUN s).thrds =
        Function.update s.thrds i { s.thrds i with state := .RUN } := rfl
    refine ⟨counters_ok_update hthrds hc ?_ ?_ ?_, ?_⟩
    · simp [h, set_thrd_state]
    · simp [h, set_thrd_state]
    · simp [h, set_thrd_state]
    · exact depths_perm_update_point hthrds
        (by simp [LIVE, _IS_STARTED, _IS_IDLE, _IS_WAIT, h]) (fun _ => rfl) hperm
  | idle s i period now h =>
    obtain ⟨hc, hperm⟩ := hinv
    unfold coop_idle
    by_cases hper : 0 < period
    · rw [if_pos hper]
      have hthrds : (set_thrd_state i .IDLE
          { s with
            idle_n := s.idle_n + 1,
            thrds := Function.update s.thrds i
              { s.thrds i with idle_to := (now + period) % TICK_MOD } }).thrds =
          Function.update s.thrds i
            { s.thrds i with
              idle_to := (now + period) % TICK_MOD, state := .IDLE } := by
        funext j
        by_cases hj : j = i
        · subst hj
          simp [set_thrd_state, Function.update_same]
        · simp [set_thrd_state, Function.update_noteq hj]
      refine ⟨counters_ok_update hthrds hc ?_ ?_ ?_, ?_⟩
      · simp [h, set_thrd_state]
      · simp [h, set_thrd_state]
      · simp [h, set_thrd_state]
      · exact depths_perm_update_point hthrds
          (by simp [LIVE, _IS_STARTED, _IS_IDLE, _IS_WAIT, h]) (fun _ => rfl) hperm
    · rw [if_neg hper]
      have hthrds : (set_thrd_state i .RUN s).thrds =
          Function.update s.thrds i { s.thrds i with state := .RUN } := rfl
      refine ⟨counters_ok_update hthrds hc ?_ ?_ ?_, ?_⟩
      · simp [h, set_thrd_state]
      · simp [h, set_thrd_state]
      · simp [h, set_thrd_state]
      · exact depths_perm_update_point hthrds
          (by simp [LIVE, _IS_STARTED, _IS_IDLE, _IS_WAIT, h]) (fun _ => rfl) hperm
  | wait s i sem timeout now h =>
    obtain ⟨hc, hperm⟩ := hinv
    have hthrds : (coop_wait_entry sem timeout now i s).thrds =
        Function.update s.thrds i
          ({ (if timeout ≠ 0 then
              { s.thrds i with
                sem_id := sem, wait_flgs_notif := false,
                wait_to := (now + timeout) % TICK_MOD, wait_flgs_inf := false }
            else
              { s.thrds i with
                sem_id := sem, wait_flgs_notif := false,
                wait_to := 0, wait_flgs_inf := true }) with state := .WAIT }) := by
      funext j
      by_cases hj : j = i
      · subst hj
        simp [coop_wait_entry, set_thrd_state, Function.update_same]
      · simp [coop_wait_entry, set_thrd_state, Function.update_noteq hj]
    refine ⟨counters_ok_update hthrds hc ?_ ?_ ?_, ?_⟩
    · by_cases ht : timeout ≠ 0 <;> simp [h, ht, coop_wait_entry, set_thrd_state]
    · by_cases ht : timeout ≠ 0 <;> simp [h, ht, coop_wait_entry, set_thrd_state]
    · by_cases ht : timeout ≠ 0 <;> simp [h, ht, coop_wait_entry, set_thrd_state]
    · refine depths_perm_update_point hthrds ?_ ?_ hperm
      · by_cases ht : timeout ≠ 0 <;>
          simp [ht, LIVE, _IS_STARTED, _IS_IDLE, _IS_WAIT, h]
      · intro _
        by_cases ht : timeout ≠ 0 <;> simp [ht]
  | term s i h =>
    obtain ⟨hc, hperm⟩ := hinv
    by_cases hlt : (s.thrds i).depth < s.depth
    · rw [thrd_terminate, if_pos hlt]
      have hthrds : (({ s with
          thrds := Function.update s.thrds i
            { s.thrds i with state := .HOLE },
          hole_n := s.hole_n + 1 } : coop_sched_ctx_t N)).thrds =
          Function.update s.thrds i { s.thrds i with state := .HOLE } := rfl
      refine ⟨counters_ok_update hthrds hc ?_ ?_ ?_, ?_⟩
      · simp [h]
      · simp [h]
      · simp [h]
      · exact depths_perm_update_point hthrds
          (by simp [LIVE, _IS_STARTED, _IS_IDLE, _IS_WAIT, h]) (fun _ => rfl) hperm
    · have hlive : LIVE (s.thrds i) = true := by
        unfold LIVE
        rw [h]
        rfl
      have hbound := hperm.1 i hlive
      have hdep : (s.thrds i).depth = s.depth := by omega
      have hD : 1 ≤ s.depth := by omega
      rw [thrd_terminate, if_neg hlt]
      exact mark_unwind_inv s i hD (Or.inl h)
        (perm_remove_top s i hperm hlive hdep) hc
  | enter s i now h =>
    obtain ⟨hc, hperm⟩ := hinv
    have hthrds : (sched_enter now i s).thrds =
        Function.update s.thrds i
          { s.thrds i with depth := s.depth + 1, switch_tick := now } := rfl
    refine ⟨counters_ok_update hthrds hc (by simp [sched_enter])
      (by simp [sched_enter]) (by simp [sched_enter]), ?_, ?_, ?_, ?_⟩
    · show depths_perm (sched_enter now i s) ((sched_enter now i s).depth - 1)
      have : (sched_enter now i s).depth - 1 = s.depth := by
        show s.depth + 1 - 1 = s.depth
        omega
      rw [this]
      exact depths_perm_update_point hthrds
        (by simp [LIVE, _IS_STARTED, _IS_IDLE, _IS_WAIT, h])
        (by intro hl; simp [LIVE, _IS_STARTED, _IS_IDLE, _IS_WAIT, h] at hl) hperm
    · rw [show (sched_enter now i s).thrds i =
        { s.thrds i with depth := s.depth + 1, switch_tick := now } by
          rw [hthrds, Function.update_same]]
      exact h
    · rw [show (sched_enter now i s).thrds i =
        { s.thrds i with depth := s.depth + 1, switch_tick := now } by
          rw [hthrds, Function.update_same]]
      rfl
    · show 1 ≤ s.depth + 1
      omega
  | first_yield s i =>
    obtain ⟨hc, hperm, hnew, hdep, hD⟩ := hinv
    have hthrds : (set_thrd_state i .RUN s).thrds =
        Function.update s.thrds i { s.thrds i with state := .RUN } := rfl
    refine ⟨counters_ok_update hthrds hc ?_ ?_ ?_, ?_⟩
    · simp [hnew, set_thrd_state]
    · simp [hnew, set_thrd_state]
    · simp [hnew, set_thrd_state]
    · refine depths_perm_add_top (i := i) (D := s.depth) hperm hD ?_ ?_ ?_ ?_
      · simp [LIVE, _IS_STARTED, _IS_IDLE, _IS_WAIT, hnew]
      · intro j hj
        rw [hthrds, Function.update_noteq hj]
      · rw [hthrds, Function.update_same]
        simp [LIVE, _IS_STARTED]
      · rw [hthrds, Function.update_same]
        exact hdep
  | first_idle s i period now =>
    obtain ⟨hc, hperm, hnew, hdep, hD⟩ := hinv
    unfold coop_idle
    by_cases hper : 0 < period
    · rw [if_pos hper]
      have hthrds : (set_thrd_state i .IDLE
          { s with
            idle_n := s.idle_n + 1,
            thrds := Function.update s.thrds i
              { s.thrds i with idle_to := (now + period) % TICK_MOD } }).thrds =
          Function.update s.thrds i
            { s.thrds i with
              idle_to := (now + period) % TICK_MOD, state := .IDLE } := by
        funext j
        by_cases hj : j = i
        · subst hj
          simp [set_thrd_state, Function.update_same]
        · simp [set_thrd_state, Function.update_noteq hj]
      refine ⟨counters_ok_update hthrds hc ?_ ?_ ?_, ?_⟩
      · simp [hnew, set_thrd_state]
      · simp [hnew, set_thrd_state]
      · simp [hnew, set_thrd_state]
      · refine depths_perm_add_top (i := i) (D := s.depth) hperm hD ?_ ?_ ?_ ?_
        · simp [LIVE, _IS_STARTED, _IS_IDLE, _IS_WAIT, hnew]
        · intro j hj
          rw [hthrds, Function.update_noteq hj]
        · rw [hthrds, Function.update_same]
          simp [LIVE, _IS_STARTED, _IS_IDLE]
        · rw [hthrds, Function.update_same]
          exact hdep
    · rw [if_neg hper]
      have hthrds : (set_thrd_state i .RUN s).thrds =
          Function.update s.thrds i { s.thrds i with state := .RUN } := rfl
      refine ⟨counters_ok_update hthrds hc ?_ ?_ ?_, ?_⟩
      · simp [hnew, set_thrd_state]
      · simp [hnew, set_thrd_state]
      · simp [hnew, set_thrd_state]
      · refine depths_perm_add_top (i := i) (D := s.depth) hperm hD ?_ ?_ ?_ ?_
        · simp [LIVE, _IS_STARTED, _IS_IDLE, _IS_WAIT, hnew]
        · intro j hj
          rw [hthrds, Function.update_noteq hj]
        · rw [hthrds, Function.update_same]
          simp [LIVE, _IS_STARTED]
        · rw [hthrds, Function.update_same]
          exact hdep
  | first_wait s i sem timeout now =>
    obtain ⟨hc, hperm, hnew, hdep, hD⟩ := hinv
    have hthrds : (coop_wait_entry sem timeout now i s).thrds =
        Function.update s.thrds i
          ({ (if timeout ≠ 0 then
              { s.thrds i with
                sem_id := sem, wait_flgs_notif := false,
                wait_to := (now + timeout) % TICK_MOD, wait_flgs_inf := false }
            else
              { s.thrds i with
                sem_id := sem, wait_flgs_notif := false,
                wait_to := 0, wait_flgs_inf := true }) with state := .WAIT }) := by
      funext j
      by_cases hj : j = i
      · subst hj
        simp [coop_wait_entry, set_thrd_state, Function.update_same]
      · simp [coop_wait_entry, set_thrd_state, Function.update_noteq hj]
    refine ⟨counters_ok_update hthrds hc ?_ ?_ ?_, ?_⟩
    · by_cases ht : timeout ≠ 0 <;>
        simp [hnew, ht, coop_wait_entry, set_thrd_state]
    · by_cases ht : timeout ≠ 0 <;>
        simp [hnew, ht, coop_wait_entry, set_thrd_state]
    · by_cases ht : timeout ≠ 0 <;>
        simp [hnew, ht, coop_wait_entry, set_thrd_state]
    · refine depths_perm_add_top (i := i) (D := s.depth) hperm hD ?_ ?_ ?_ ?_
      · simp [LIVE, _IS_STARTED, _IS_IDLE, _IS_WAIT, hnew]
      · intro j hj
        rw [hthrds, Function.update_noteq hj]
      · rw [hthrds, Function.update_same]
        simp [LIVE, _IS_STARTED, _IS_IDLE, _IS_WAIT]
      · rw [hthrds, Function.update_same]
        by_cases ht : timeout ≠ 0 <;> simp [ht] <;> exact hdep
  | first_ret s i =>
    obtain ⟨hc, hperm, hnew, hdep, hD⟩ := hinv
    have hlt : ¬((s.thrds i).depth < s.depth) := by omega
    rw [thrd_terminate, if_neg hlt]
    apply mark_unwind_inv s i hD (Or.inr hnew) ?_ hc
    refine depths_perm_update_point (t := { s.thrds i with state := .EMPTY })
      rfl ?_ ?_ hperm
    · simp [LIVE, _IS_STARTED, _IS_IDLE, _IS_WAIT, hnew] <;> decide
    · intro hl
      simp [LIVE, _IS_STARTED, _IS_IDLE, _IS_WAIT] at hl

/-- The freshly initialized scheduler satisfies the invariant. -/
theorem init_sched_inv (N : Nat) : sched_inv (init_sched N) := by
  refine ⟨⟨?_, ?_, ?_⟩, ?_, ?_, ?_⟩
  · simp [init_sched, zero_sched, count_slots]
  · simp [init_sched, zero_sched, count_slots]
  · simp [init_sched, zero_sched, count_slots]
  · intro i hi
    simp [init_sched, zero_sched, LIVE, _IS_STARTED, _IS_IDLE, _IS_WAIT] at hi
  · intro i j hi _ _
    simp [init_sched, zero_sched, LIVE, _IS_STARTED, _IS_IDLE, _IS_WAIT] at hi
  · intro d hd
    simp [init_sched, zero_sched] at hd

/-- Claim C2: in every scheduler state reachable from the initial
all-`EMPTY` state through scheduling, service-loop dispatch steps,
yield/idle/wait/yield_after, notify/notify_all and thread termination,
the following holds between scheduler iterations: `busy_n` equals the
number of non-`EMPTY` slots, `hole_n` the number of `HOLE` slots,
`idle_n` the number of `IDLE` slots, and the depths of the
`RUN`/`IDLE`/`WAIT`/`HOLE` slots are a permutation of
`{1..sched.depth}`. -/
theorem claim_C2 {N : Nat} (s : coop_sched_ctx_t N)
    (h : coop_sched_reach N none s) : sched_inv s := by
  have hgen : ∀ (m : Option (Fin N)) (t : coop_sched_ctx_t N),
      coop_sched_reach N m t → mode_inv m t := by
    intro m t hr
    induction hr with
    | init => exact init_sched_inv N
    | step hr hstep ih => exact step_preserves_inv hstep ih
  exact hgen none s h

/-- Claim C2 witness: the invariant evaluated on the state reached after
scheduling one thread and advancing the dispatcher. -/
theorem claim_C2_witness :
    sched_inv (sched_advance
      (sched_thread_loop 2 (some 1) none 0 0 64 (List.finRange 2)
        (init_sched 2))) :=
  claim_C2 _
    (coop_sched_reach.step
      (coop_sched_reach.step coop_sched_reach.init
        (coop_sched_step.sched none (init_sched 2) (some 1) none 0 0 64
          (by decide) (by decide)))
      (coop_sched_step.advance _))

/-- Characterization of the `_system_idle` per-slot scan: promoted
slots, untouched slots, the `idle_n` decrement, untouched scalar fields,
and the minimum-wake-up-distance accumulator. -/
theorem system_idle_scan_spec {N : Nat} (now : Nat) (l : List (Fin N))
    (hnd : l.Nodup) (s : coop_sched_ctx_t N) (m0 : Nat) :
    (∀ j, (system_idle_scan now l (s, m0)).1.thrds j =
      if j ∈ l ∧ (s.thrds j).state = .IDLE ∧
          COOP_IS_TICK_OVER now (s.thrds j).idle_to = true then
        { s.thrds j with state := .RUN }
      else s.thrds j) ∧
    (system_idle_scan now l (s, m0)).1.idle_n =
      s.idle_n - l.countP (fun j => decide ((s.thrds j).state = .IDLE ∧
        COOP_IS_TICK_OVER now (s.thrds j).idle_to = true)) ∧
    (system_idle_scan now l (s, m0)).1.busy_n = s.busy_n ∧
    (system_idle_scan now l (s, m0)).1.hole_n = s.hole_n ∧
    (system_idle_scan now l (s, m0)).1.cur_thrd = s.cur_thrd ∧
    (system_idle_scan now l (s, m0)).1.depth = s.depth ∧
    (system_idle_scan now l (s, m0)).1.exe_ctx = s.exe_ctx ∧
    (∀ j ∈ l, (s.thrds j).state = .IDLE →
      ¬COOP_IS_TICK_OVER now (s.thrds j).idle_to = true →
      (system_idle_scan now l (s, m0)).2 ≤ tick_sub (s.thrds j).idle_to now) ∧
    (system_idle_scan now l (s, m0)).2 ≤ m0 ∧
    ((system_idle_scan now l (s, m0)).2 = m0 ∨
      ∃ j ∈ l, (s.thrds j).state = .IDLE ∧
        ¬COOP_IS_TICK_OVER now (s.thrds j).idle_to = true ∧
        tick_sub (s.thrds j).idle_to now =
          (system_idle_scan now l (s, m0)).2) := by
  induction l generalizing s m0 with
  | nil =>
    refine ⟨fun j => by simp [system_idle_scan], ?_, rfl, rfl, rfl, rfl, rfl,
      ?_, le_refl m0, Or.inl rfl⟩
    · simp [system_idle_scan]
    · intro j hj
      cases hj
  | cons a t ih =>
    have hat : a ∉ t := (List.nodup_cons.mp hnd).1
    have hndt : t.Nodup := (List.nodup_cons.mp hnd).2
    rw [system_idle_scan]
    by_cases hidle : (s.thrds a).state = .IDLE
    · rw [if_neg (by simp [hidle])]
      by_cases hover : COOP_IS_TICK_OVER now (s.thrds a).idle_to = true
      · rw [if_pos hover]
        obtain ⟨ihp, ihi, ihb, ihh, ihc, ihd, ihe, ihm1, ihm2, ihm3⟩ :=
          ih hndt (sched_idle_promote a s) m0
        have hagree : ∀ j, j ≠ a →
            (sched_idle_promote a s).thrds j = s.thrds j := by
          intro j hj
          simp [sched_idle_promote, set_thrd_state, Function.update_noteq hj]
        have hcnt : t.countP (fun j =>
            decide (((sched_idle_promote a s).thrds j).state = .IDLE ∧
              COOP_IS_TICK_OVER now
                ((sched_idle_promote a s).thrds j).idle_to = true)) =
            t.countP (fun j => decide ((s.thrds j).state = .IDLE ∧
              COOP_IS_TICK_OVER now (s.thrds j).idle_to = true)) := by
          apply List.countP_congr
          intro j hj
          rw [hagree j (fun he => hat (he ▸ hj))]
        refine ⟨?_, ?_, ?_, ?_, ?_, ?_, ?_, ?_, ihm2, ?_⟩
        · intro j
          rw [ihp j]
          by_cases hja : j = a
          · subst hja
            simp [sched_idle_promote, set_thrd_state, hat, hidle, hover]
          · rw [hagree j hja]
            by_cases hjt : j ∈ t
            · simp [hjt, hja]
            · have : j ∉ (a :: t) := by simp [hja, hjt]
              simp [hjt, this]
        · rw [ihi, hcnt, List.countP_cons_of_pos _ _ (by simp [hidle, hover])]
          have : (sched_idle_promote a s).idle_n = s.idle_n - 1 := rfl
          rw [this]
          omega
        · rw [ihb]
          rfl
        · rw [ihh]
          rfl
        · rw [ihc]
          rfl
        · rw [ihd]
          rfl
        · rw [ihe]
          rfl
        · intro j hj hjidle hjover
          rcases List.mem_cons.mp hj with rfl | hjt
          · exact absurd hover hjover
          · have hne : j ≠ a := fun he => hat (he ▸ hjt)
            rw [← hagree j hne]
            exact ihm1 j hjt (by rw [hagree j hne]; exact hjidle)
              (by rw [hagree j hne]; exact hjover)
        · rcases ihm3 with h | ⟨j, hjt, hji, hjo, hje⟩
          · exact Or.inl h
          · refine Or.inr ⟨j, List.mem_cons_of_mem a hjt, ?_, ?_, ?_⟩ <;>
              rw [← hagree j (fun he => hat (he ▸ hjt))]
            · exact hji
            · exact hjo
            · exact hje
      · rw [if_neg hover]
        by_cases hlt : tick_sub (s.thrds a).idle_to now < m0
        · rw [if_pos hlt]
          obtain ⟨ihp, ihi, ihb, ihh, ihc, ihd, ihe, ihm1, ihm2, ihm3⟩ :=
            ih hndt s (tick_sub (s.thrds a).idle_to now)
          refine ⟨?_, ?_, ihb, ihh, ihc, ihd, ihe, ?_, le_trans ihm2 (le_of_lt hlt), ?_⟩
          · intro j
            rw [ihp j]
            by_cases hja : j = a
            · subst hja
              simp [hat, hover]
            · by_cases hjt : j ∈ t
              · simp [hjt, hja]
              · have : j ∉ (a :: t) := by simp [hja, hjt]
                simp [hjt, this]
          · rw [ihi, List.countP_cons_of_neg _ _ (by simp [hover])]
          · intro j hj hjidle hjover
            rcases List.mem_cons.mp hj with rfl | hjt
            · exact ihm2
            · exact ihm1 j hjt hjidle hjover
          · rcases ihm3 with h | ⟨j, hjt, hji, hjo, hje⟩
            · exact Or.inr ⟨a, List.mem_cons_self a t, hidle, hover, h.symm⟩
            · exact Or.inr ⟨j, List.mem_cons_of_mem a hjt, hji, hjo, hje⟩
        · rw [if_neg hlt]
          obtain ⟨ihp, ihi, ihb, ihh, ihc, ihd, ihe, ihm1, ihm2, ihm3⟩ :=
            ih hndt s m0
          refine ⟨?_, ?_, ihb, ihh, ihc, ihd, ihe, ?_, ihm2, ?_⟩
          · intro j
            rw [ihp j]
            by_cases hja : j = a
            · subst hja
              simp [hat, hover]
            · by_cases hjt : j ∈ t
              · simp [hjt, hja]
              · have : j ∉ (a :: t) := by simp [hja, hjt]
                simp [hjt, this]
          · rw [ihi, List.countP_cons_of_neg _ _ (by simp [hover])]
          · intro j hj hjidle hjover
            rcases List.mem_cons.mp hj with rfl | hjt
            · exact le_trans ihm2 (le_of_not_lt hlt)
            · exact ihm1 j hjt hjidle hjover
          · rcases ihm3 with h | ⟨j, hjt, hji, hjo, hje⟩
            · exact Or.inl h
            · exact Or.inr ⟨j, List.mem_cons_of_mem a hjt, hji, hjo, hje⟩
    · rw [if_pos (by simp [hidle])]
      obtain ⟨ihp, ihi, ihb, ihh, ihc, ihd, ihe, ihm1, ihm2, ihm3⟩ :=
        ih hndt s m0
      refine ⟨?_, ?_, ihb, ihh, ihc, ihd, ihe, ?_, ihm2, ?_⟩
      · intro j
        rw [ihp j]
        by_cases hja : j = a
        · subst hja
          simp [hat, hidle]
        · by_cases hjt : j ∈ t
          · simp [hjt, hja]
          · have : j ∉ (a :: t) := by simp [hja, hjt]
            simp [hjt, this]
      · rw [ihi, List.countP_cons_of_neg _ _ (by simp [hidle])]
      · intro j hj hjidle hjover
        rcases List.mem_cons.mp hj with rfl | hjt
        · exact absurd hjidle hidle
        · exact ihm1 j hjt hjidle hjover
      · rcases ihm3 with h | ⟨j, hjt, hji, hjo, hje⟩
        · exact Or.inl h
        · exact Or.inr ⟨j, List.mem_cons_of_mem a hjt, hji, hjo, hje⟩

/-- The idle scan preserves the counter invariant. -/
theorem system_idle_scan_counters {N : Nat} (now : Nat)
    (s : coop_sched_ctx_t N) (hc : counters_ok s) :
    counters_ok (system_idle_scan now (List.finRange N) (s, COOP_MAX_TICK)).1 := by
  obtain ⟨hp, hi, hb, hh, _, _, _, _, _, _⟩ :=
    system_idle_scan_spec now (List.finRange N) (List.nodup_finRange N) s
      COOP_MAX_TICK
  have hcongr : ∀ p : coop_thrd_ctx_t → Bool,
      (∀ u : coop_thrd_ctx_t,
        p { u with state := .RUN } = p u ∨ u.state ≠ .IDLE) →
      count_slots (system_idle_scan now (List.finRange N) (s, COOP_MAX_TICK)).1 p =
        count_slots s p := by
    intro p hcase
    apply count_slots_congr
    intro j
    rw [hp j]
    by_cases hm : j ∈ List.finRange N ∧ (s.thrds j).state = .IDLE ∧
        COOP_IS_TICK_OVER now (s.thrds j).idle_to = true
    · rw [if_pos hm]
      rcases hcase (s.thrds j) with hok | hni
      · exact hok
      · exact absurd hm.2.1 hni
    · rw [if_neg hm]
  refine ⟨?_, ?_, ?_⟩
  · rw [hb, hc.1, hcongr]
    intro u
    by_cases hu : u.state = .IDLE
    · exact Or.inl (by simp [hu])
    · exact Or.inr hu
  · rw [hh, hc.2.1, hcongr]
    intro u
    by_cases hu : u.state = .IDLE
    · exact Or.inl (by simp [hu])
    · exact Or.inr hu
  · rw [hi, hc.2.2]
    have hcount : count_slots
        (system_idle_scan now (List.finRange N) (s, COOP_MAX_TICK)).1
        (fun t => t.state == .IDLE) =
        (Finset.univ.filter fun j : Fin N => (s.thrds j).state = .IDLE ∧
          ¬((s.thrds j).state = .IDLE ∧
            COOP_IS_TICK_OVER now (s.thrds j).idle_to = true)).card := by
      unfold count_slots
      congr 1
      apply Finset.filter_congr
      intro j _
      rw [hp j]
      by_cases hm : j ∈ List.finRange N ∧ (s.thrds j).state = .IDLE ∧
          COOP_IS_TICK_OVER now (s.thrds j).idle_to = true
      · rw [if_pos hm]
        simp only [beq_iff_eq]
        constructor
        · intro hru
          cases hru
        · intro hcl
          exact absurd ⟨hm.2.1, hm.2.2⟩ hcl.2
      · rw [if_neg hm]
        simp only [beq_iff_eq]
        constructor
        · intro hcl
          refine ⟨hcl, fun hq => hm ⟨List.mem_finRange j, hq⟩⟩
        · intro hcl
          exact hcl.1
    rw [hcount,
      card_filter_sub (fun j : Fin N => (s.thrds j).state = .IDLE)
        (fun j => (s.thrds j).state = .IDLE ∧
          COOP_IS_TICK_OVER now (s.thrds j).idle_to = true)
        (fun j hq => hq.1),
      card_filter_eq_countP]
    have hcs : count_slots s (fun t => t.state == .IDLE) =
        (Finset.univ.filter fun j : Fin N => (s.thrds j).state = .IDLE).card := by
      unfold count_slots
      congr 1
      apply Finset.filter_congr
      intro j _
      simp
    rw [hcs,
      ← card_filter_eq_countP (fun j => (s.thrds j).state = .IDLE),
      ← card_filter_eq_countP (fun j => (s.thrds j).state = .IDLE ∧
        COOP_IS_TICK_OVER now (s.thrds j).idle_to = true)]

/-- Under correct counters, a pool of only `EMPTY`/`HOLE`/`IDLE` slots
satisfies the idle-ready condition `busy_n - hole_n ≤ idle_n`. -/
theorem idle_ready_cond {N : Nat} (s : coop_sched_ctx_t N)
    (hc : counters_ok s)
    (hall : ∀ i : Fin N, (s.thrds i).state = .EMPTY ∨
      (s.thrds i).state = .HOLE ∨ (s.thrds i).state = .IDLE) :
    s.busy_n - s.hole_n ≤ s.idle_n := by
  have h : s.busy_n ≤ s.hole_n + s.idle_n := by
    rw [hc.1, hc.2.1, hc.2.2]
    unfold count_slots
    have hsub : (Finset.univ.filter fun j : Fin N =>
        (!((s.thrds j).state == .EMPTY)) = true) ⊆
        (Finset.univ.filter fun j : Fin N =>
          ((s.thrds j).state == .HOLE) = true) ∪
        (Finset.univ.filter fun j : Fin N =>
          ((s.thrds j).state == .IDLE) = true) := by
      intro j hj
      simp only [Finset.mem_filter, Finset.mem_univ, true_and,
        Finset.mem_union] at hj ⊢
      rcases hall j with h | h | h
      · simp [h] at hj
      · exact Or.inl (by simp [h])
      · exact Or.inr (by simp [h])
    calc (Finset.univ.filter fun j : Fin N =>
        (!((s.thrds j).state == .EMPTY)) = true).card
        ≤ _ := Finset.card_le_card hsub
      _ ≤ _ := Finset.card_union_le _ _
  omega

/-- Under correct counters, a `RUN` slot defeats the idle-ready
condition. -/
theorem run_breaks_cond {N : Nat} (s : coop_sched_ctx_t N)
    (hc : counters_ok s) (i : Fin N) (hrun : (s.thrds i).state = .RUN) :
    ¬(s.busy_n - s.hole_n ≤ s.idle_n) := by
  have h : s.hole_n + s.idle_n + 1 ≤ s.busy_n := by
    rw [hc.1, hc.2.1, hc.2.2]
    unfold count_slots
    have hdisj : Disjoint
        (Finset.univ.filter fun j : Fin N =>
          ((s.thrds j).state == .HOLE) = true)
        (Finset.univ.filter fun j : Fin N =>
          ((s.thrds j).state == .IDLE) = true) := by
      rw [Finset.disjoint_filter]
      intro j _ hj
      simp only [beq_iff_eq] at hj ⊢
      rw [hj]
      simp
    have hni : i ∉ (Finset.univ.filter fun j : Fin N =>
        ((s.thrds j).state == .HOLE) = true) ∪
        (Finset.univ.filter fun j : Fin N =>
          ((s.thrds j).state == .IDLE) = true) := by
      simp [hrun]
    have hsub : insert i
        ((Finset.univ.filter fun j : Fin N =>
          ((s.thrds j).state == .HOLE) = true) ∪
        (Finset.univ.filter fun j : Fin N =>
          ((s.thrds j).state == .IDLE) = true)) ⊆
        (Finset.univ.filter fun j : Fin N =>
          (!((s.thrds j).state == .EMPTY)) = true) := by
      intro j hj
      rcases Finset.mem_insert.mp hj with rfl | hj
      · simp [hrun]
      · simp only [Finset.mem_union, Finset.mem_filter, Finset.mem_univ,
          true_and, beq_iff_eq] at hj
        rcases hj with h | h <;> simp [h]
    calc (Finset.univ.filter fun j : Fin N =>
          ((s.thrds j).state == .HOLE) = true).card +
        (Finset.univ.filter fun j : Fin N =>
          ((s.thrds j).state == .IDLE) = true).card + 1
        = (insert i
            ((Finset.univ.filter fun j : Fin N =>
              ((s.thrds j).state == .HOLE) = true) ∪
            (Finset.univ.filter fun j : Fin N =>
              ((s.thrds j).state == .IDLE) = true))).card := by
          rw [Finset.card_insert_of_not_mem hni,
            Finset.card_union_of_disjoint hdisj]
      _ ≤ _ := Finset.card_le_card hsub
  omega

/-- The tick difference never reaches the tick modulus. -/
theorem tick_sub_lt (a b : Nat) : tick_sub a b < TICK_MOD := by
  unfold tick_sub
  exact Nat.mod_lt _ (by decide)

/-- Sleeping exactly the wrap-safe distance to a wake-up tick makes that
tick pass. -/
theorem tick_over_after_sub (time tk : Nat) :
    COOP_IS_TICK_OVER (time + tick_sub tk time) tk = true := by
  unfold COOP_IS_TICK_OVER tick_sub
  rw [decide_eq_true_eq]
  have hM : TICK_MOD = 4294967296 := rfl
  rw [hM]
  omega

/-- One pass of the `_system_idle` loop while the idle-ready condition
holds. -/
theorem system_idle_loop_step {N : Nat} (fuel i min_idle time : Nat)
    (s : coop_sched_ctx_t N) (log : List Nat)
    (hcond : 0 < s.idle_n ∧ s.busy_n - s.hole_n ≤ s.idle_n) :
    system_idle_loop N (fuel + 1) i min_idle time s log =
      system_idle_loop N fuel N
        (system_idle_scan (if i ≠ 0 then time + min_idle else time)
          (List.finRange N) (s, COOP_MAX_TICK)).2
        (if i ≠ 0 then time + min_idle else time)
        (system_idle_scan (if i ≠ 0 then time + min_idle else time)
          (List.finRange N) (s, COOP_MAX_TICK)).1
        (if i ≠ 0 then log ++ [min_idle] else log) := by
  rw [system_idle_loop, if_pos hcond]

/-- The `_system_idle` loop exits as soon as the idle-ready condition
fails. -/
theorem system_idle_loop_stop {N : Nat} (fuel i min_idle time : Nat)
    (s : coop_sched_ctx_t N) (log : List Nat)
    (hcond : ¬(0 < s.idle_n ∧ s.busy_n - s.hole_n ≤ s.idle_n)) :
    system_idle_loop N (fuel + 1) i min_idle time s log = (s, time, log) := by
  rw [system_idle_loop, if_neg hcond]

/-- Claim C8: when all non-hole busy threads are `IDLE`, the system-idle
routine promotes immediately (without invoking the idle primitive) every
`IDLE` slot whose `idle_to` is already past on entry; otherwise it
computes `min_idle` as the minimum wrap-safe distance `idle_to - now`
over all `IDLE` slots, invokes the platform idle primitive for exactly
`min_idle` ticks, and promotes every `IDLE` slot whose `idle_to` has then
passed to `RUN`, decrementing `idle_n` for each; the collapse repeats
until at least one slot is `RUN` or no slots remain idle-only. -/
theorem claim_C8 {N : Nat} (s : coop_sched_ctx_t N) (time fuel : Nat)
    (hc : counters_ok s)
    (hall : ∀ i : Fin N, (s.thrds i).state = .EMPTY ∨
      (s.thrds i).state = .HOLE ∨ (s.thrds i).state = .IDLE)
    (hidle : 0 < s.idle_n)
    (hfuel : 3 ≤ fuel) :
    ((∃ i : Fin N, (s.thrds i).state = .IDLE ∧
        COOP_IS_TICK_OVER time (s.thrds i).idle_to = true) →
      (_system_idle fuel time s).2.2 = [] ∧
      (∀ i : Fin N, (s.thrds i).state = .IDLE →
        COOP_IS_TICK_OVER time (s.thrds i).idle_to = true →
        ((_system_idle fuel time s).1.thrds i).state = .RUN) ∧
      (∀ i : Fin N, ¬((s.thrds i).state = .IDLE ∧
          COOP_IS_TICK_OVER time (s.thrds i).idle_to = true) →
        (_system_idle fuel time s).1.thrds i = s.thrds i) ∧
      (_system_idle fuel time s).1.idle_n =
        s.idle_n - (Finset.univ.filter fun j : Fin N =>
          (s.thrds j).state = .IDLE ∧
          COOP_IS_TICK_OVER time (s.thrds j).idle_to = true).card) ∧
    ((∀ i : Fin N, (s.thrds i).state = .IDLE →
        ¬COOP_IS_TICK_OVER time (s.thrds i).idle_to = true) →
      ∃ m,
        (_system_idle fuel time s).2.2 = [m] ∧
        (∀ i : Fin N, (s.thrds i).state = .IDLE →
          m ≤ tick_sub (s.thrds i).idle_to time) ∧
        (∃ i : Fin N, (s.thrds i).state = .IDLE ∧
          tick_sub (s.thrds i).idle_to time = m) ∧
        (_system_idle fuel time s).2.1 = time + m ∧
        (∀ i : Fin N, (s.thrds i).state = .IDLE →
          COOP_IS_TICK_OVER (time + m) (s.thrds i).idle_to = true →
          ((_system_idle fuel time s).1.thrds i).state = .RUN) ∧
        (∀ i : Fin N, ¬((s.thrds i).state = .IDLE ∧
            COOP_IS_TICK_OVER (time + m) (s.thrds i).idle_to = true) →
          (_system_idle fuel time s).1.thrds i = s.thrds i) ∧
        (_system_idle fuel time s).1.idle_n =
          s.idle_n - (Finset.univ.filter fun j : Fin N =>
            (s.thrds j).state = .IDLE ∧
            COOP_IS_TICK_OVER (time + m) (s.thrds j).idle_to = true).card) ∧
    ¬(0 < (_system_idle fuel time s).1.idle_n ∧
      (_system_idle fuel time s).1.busy_n -
        (_system_idle fuel time s).1.hole_n ≤
        (_system_idle fuel time s).1.idle_n) := by
  obtain ⟨f, rfl⟩ : ∃ f, fuel = f + 3 := ⟨fuel - 3, by omega⟩
  obtain ⟨i0, hi0⟩ : ∃ i0 : Fin N, (s.thrds i0).state = .IDLE := by
    have h1 : 0 < count_slots s (fun t => t.state == .IDLE) := hc.2.2 ▸ hidle
    unfold count_slots at h1
    obtain ⟨i0, hmem⟩ := Finset.card_pos.mp h1
    rw [Finset.mem_filter] at hmem
    exact ⟨i0, by simpa using hmem.2⟩
  have hcond : 0 < s.idle_n ∧ s.busy_n - s.hole_n ≤ s.idle_n :=
    ⟨hidle, idle_ready_cond s hc hall⟩
  obtain ⟨hp1, hi1, hb1, hh1, hcu1, hd1, he1, hm1a, hm1b, hm1c⟩ :=
    system_idle_scan_spec time (List.finRange N) (List.nodup_finRange N) s
      COOP_MAX_TICK
  have hcnt1 := system_idle_scan_counters time s hc
  have hstep1 : _system_idle (f + 3) time s =
      system_idle_loop N (f + 2) N
        (system_idle_scan time (List.finRange N) (s, COOP_MAX_TICK)).2 time
        (system_idle_scan time (List.finRange N) (s, COOP_MAX_TICK)).1 [] := by
    unfold _system_idle
    rw [show f + 3 = (f + 2) + 1 from rfl,
      system_idle_loop_step (f + 2) 0 0 time s [] hcond]
    simp
  by_cases hex : ∃ i : Fin N, (s.thrds i).state = .IDLE ∧
      COOP_IS_TICK_OVER time (s.thrds i).idle_to = true
  · obtain ⟨ie, hie, hieo⟩ := hex
    have hrun1 :
        ((system_idle_scan time (List.finRange N) (s, COOP_MAX_TICK)).1.thrds ie).state
          = .RUN := by
      rw [hp1 ie, if_pos ⟨List.mem_finRange ie, hie, hieo⟩]
    have hbreak : ¬(0 <
        (system_idle_scan time (List.finRange N) (s, COOP_MAX_TICK)).1.idle_n ∧
        (system_idle_scan time (List.finRange N) (s, COOP_MAX_TICK)).1.busy_n -
          (system_idle_scan time (List.finRange N) (s, COOP_MAX_TICK)).1.hole_n ≤
          (system_idle_scan time (List.finRange N) (s, COOP_MAX_TICK)).1.idle_n) :=
      fun hcc => run_breaks_cond _ hcnt1 ie hrun1 hcc.2
    have hdone : _system_idle (f + 3) time s =
        ((system_idle_scan time (List.finRange N) (s, COOP_MAX_TICK)).1,
          time, []) := by
      rw [hstep1, show f + 2 = (f + 1) + 1 from rfl,
        system_idle_loop_stop (f + 1) N _ time _ [] hbreak]
    refine ⟨fun _ => ⟨?_, ?_, ?_, ?_⟩, ?_, ?_⟩
    · rw [hdone]
    · intro i h1 h2
      rw [hdone]
      show ((system_idle_scan time (List.finRange N) (s, COOP_MAX_TICK)).1.thrds i).state
        = .RUN
      rw [hp1 i, if_pos ⟨List.mem_finRange i, h1, h2⟩]
    · intro i hni
      rw [hdone]
      show (system_idle_scan time (List.finRange N) (s, COOP_MAX_TICK)).1.thrds i
        = s.thrds i
      rw [hp1 i, if_neg (fun hcc => hni ⟨hcc.2.1, hcc.2.2⟩)]
    · rw [hdone]
      show (system_idle_scan time (List.finRange N) (s, COOP_MAX_TICK)).1.idle_n = _
      rw [hi1, card_filter_eq_countP]
    · intro hnone
      exact absurd hieo (hnone ie hie)
    · rw [hdone]
      exact hbreak
  · push_neg at hex
    have hs1 : (system_idle_scan time (List.finRange N) (s, COOP_MAX_TICK)).1
        = s := by
      refine sched_state_ext hcu1 hb1 hh1 ?_ hd1 he1 ?_
      · rw [hi1, List.countP_eq_zero.mpr, Nat.sub_zero]
        intro j _
        simp only [decide_eq_true_eq]
        intro hcc
        exact hex j hcc.1 hcc.2
      · intro j
        rw [hp1 j, if_neg (fun hcc => hex j hcc.2.1 hcc.2.2)]
    have hmb : ∀ i : Fin N, (s.thrds i).state = .IDLE →
        (system_idle_scan time (List.finRange N) (s, COOP_MAX_TICK)).2 ≤
          tick_sub (s.thrds i).idle_to time :=
      fun i hi => hm1a i (List.mem_finRange i) hi (hex i hi)
    have hmex : ∃ i : Fin N, (s.thrds i).state = .IDLE ∧
        tick_sub (s.thrds i).idle_to time =
          (system_idle_scan time (List.finRange N) (s, COOP_MAX_TICK)).2 := by
      rcases hm1c with hmax | ⟨j, _, hji, _, hje⟩
      · refine ⟨i0, hi0, ?_⟩
        have h1 := hmb i0 hi0
        have h2 := tick_sub_lt (s.thrds i0).idle_to time
        have h3 : COOP_MAX_TICK = TICK_MOD - 1 := rfl
        have h4 : (0 : Nat) < TICK_MOD := by decide
        omega
      · exact ⟨j, hji, hje⟩
    obtain ⟨hp2, hi2, hb2, hh2, hcu2, hd2, he2, _, _, _⟩ :=
      system_idle_scan_spec
        (time + (system_idle_scan time (List.finRange N) (s, COOP_MAX_TICK)).2)
        (List.finRange N) (List.nodup_finRange N) s COOP_MAX_TICK
    have hN0 : N ≠ 0 := Nat.pos_iff_ne_zero.mp i0.pos
    have hstep2 : system_idle_loop N (f + 2) N
        (system_idle_scan time (List.finRange N) (s, COOP_MAX_TICK)).2 time s [] =
        system_idle_loop N (f + 1) N
          (system_idle_scan
            (time + (system_idle_scan time (List.finRange N) (s, COOP_MAX_TICK)).2)
            (List.finRange N) (s, COOP_MAX_TICK)).2
          (time + (system_idle_scan time (List.finRange N) (s, COOP_MAX_TICK)).2)
          (system_idle_scan
            (time + (system_idle_scan time (List.finRange N) (s, COOP_MAX_TICK)).2)
            (List.finRange N) (s, COOP_MAX_TICK)).1
          [(system_idle_scan time (List.finRange N) (s, COOP_MAX_TICK)).2] := by
      rw [show f + 2 = (f + 1) + 1 from rfl,
        system_idle_loop_step (f + 1) N _ time s [] hcond]
      simp [hN0]
    obtain ⟨im, him, himd⟩ := hmex
    have hover2 : COOP_IS_TICK_OVER
        (time + (system_idle_scan time (List.finRange N) (s, COOP_MAX_TICK)).2)
        (s.thrds im).idle_to = true := by
      rw [← himd]
      exact tick_over_after_sub time (s.thrds im).idle_to
    have hrun2 : ((system_idle_scan
        (time + (system_idle_scan time (List.finRange N) (s, COOP_MAX_TICK)).2)
        (List.finRange N) (s, COOP_MAX_TICK)).1.thrds im).state = .RUN := by
      rw [hp2 im, if_pos ⟨List.mem_finRange im, him, hover2⟩]
    have hcnt2 := system_idle_scan_counters
      (time + (system_idle_scan time (List.finRange N) (s, COOP_MAX_TICK)).2) s hc
    have hbreak2 : ¬(0 < (system_idle_scan
        (time + (system_idle_scan time (List.finRange N) (s, COOP_MAX_TICK)).2)
        (List.finRange N) (s, COOP_MAX_TICK)).1.idle_n ∧
        (system_idle_scan
          (time + (system_idle_scan time (List.finRange N) (s, COOP_MAX_TICK)).2)
          (List.finRange N) (s, COOP_MAX_TICK)).1.busy_n -
        (system_idle_scan
          (time + (system_idle_scan time (List.finRange N) (s, COOP_MAX_TICK)).2)
          (List.finRange N) (s, COOP_MAX_TICK)).1.hole_n ≤
        (system_idle_scan
          (time + (system_idle_scan time (List.finRange N) (s, COOP_MAX_TICK)).2)
          (List.finRange N) (s, COOP_MAX_TICK)).1.idle_n) :=
      fun hcc => run_breaks_cond _ hcnt2 im hrun2 hcc.2
    have hdone : _system_idle (f + 3) time s =
        ((system_idle_scan
          (time + (system_idle_scan time (List.finRange N) (s, COOP_MAX_TICK)).2)
          (List.finRange N) (s, COOP_MAX_TICK)).1,
          time + (system_idle_scan time (List.finRange N) (s, COOP_MAX_TICK)).2,
          [(system_idle_scan time (List.finRange N) (s, COOP_MAX_TICK)).2]) := by
      rw [hstep1, hs1, hstep2, show f + 1 = f + 1 from rfl,
        system_idle_loop_stop f N _ _ _ _ hbreak2]
    refine ⟨?_, ?_, ?_⟩
    · intro hcontra
      obtain ⟨ie, hie, hieo⟩ := hcontra
      exact absurd hieo (hex ie hie)
    · intro _
      refine ⟨(system_idle_scan time (List.finRange N) (s, COOP_MAX_TICK)).2,
        ?_, hmb, ⟨im, him, himd⟩, ?_, ?_, ?_, ?_⟩
      · rw [hdone]
      · rw [hdone]
      · intro i h1 h2
        rw [hdone]
        show ((system_idle_scan
          (time + (system_idle_scan time (List.finRange N) (s, COOP_MAX_TICK)).2)
          (List.finRange N) (s, COOP_MAX_TICK)).1.thrds i).state = .RUN
        rw [hp2 i, if_pos ⟨List.mem_finRange i, h1, h2⟩]
      · intro i hni
        rw [hdone]
        show (system_idle_scan
          (time + (system_idle_scan time (List.finRange N) (s, COOP_MAX_TICK)).2)
          (List.finRange N) (s, COOP_MAX_TICK)).1.thrds i = s.thrds i
        rw [hp2 i, if_neg (fun hcc => hni ⟨hcc.2.1, hcc.2.2⟩)]
      · rw [hdone]
        show (system_idle_scan
          (time + (system_idle_scan time (List.finRange N) (s, COOP_MAX_TICK)).2)
          (List.finRange N) (s, COOP_MAX_TICK)).1.idle_n = _
        rw [hi2, card_filter_eq_countP]
    · rw [hdone]
      exact hbreak2

/-- Claim C8 witness: a single idle thread waking at tick 100 makes the
system sleep exactly 100 ticks and resume it. -/
theorem claim_C8_witness :
    counters_ok ({ init_sched 1 with
      busy_n := 1, idle_n := 1,
      thrds := fun _ => { state := .IDLE, idle_to := 100 } } :
        coop_sched_ctx_t 1) ∧
    (_system_idle 3 0 ({ init_sched 1 with
      busy_n := 1, idle_n := 1,
      thrds := fun _ => { state := .IDLE, idle_to := 100 } } :
        coop_sched_ctx_t 1)).2.2 = [100] ∧
    (_system_idle 3 0 ({ init_sched 1 with
      busy_n := 1, idle_n := 1,
      thrds := fun _ => { state := .IDLE, idle_to := 100 } } :
        coop_sched_ctx_t 1)).2.1 = 100 ∧
    ((_system_idle 3 0 ({ init_sched 1 with
      busy_n := 1, idle_n := 1,
      thrds := fun _ => { state := .IDLE, idle_to := 100 } } :
        coop_sched_ctx_t 1)).1.thrds 0).state = .RUN ∧
    ¬(0 < (_system_idle 3 0 ({ init_sched 1 with
        busy_n := 1, idle_n := 1,
        thrds := fun _ => { state := .IDLE, idle_to := 100 } } :
          coop_sched_ctx_t 1)).1.idle_n ∧
      (_system_idle 3 0 ({ init_sched 1 with
        busy_n := 1, idle_n := 1,
        thrds := fun _ => { state := .IDLE, idle_to := 100 } } :
          coop_sched_ctx_t 1)).1.busy_n -
        (_system_idle 3 0 ({ init_sched 1 with
          busy_n := 1, idle_n := 1,
          thrds := fun _ => { state := .IDLE, idle_to := 100 } } :
            coop_sched_ctx_t 1)).1.hole_n ≤
        (_system_idle 3 0 ({ init_sched 1 with
          busy_n := 1, idle_n := 1,
          thrds := fun _ => { state := .IDLE, idle_to := 100 } } :
            coop_sched_ctx_t 1)).1.idle_n) := by
  have h := claim_C8 (N := 1)
    ({ init_sched 1 with
      busy_n := 1, idle_n := 1,
      thrds := fun _ => { state := .IDLE, idle_to := 100 } } :
        coop_sched_ctx_t 1) 0 3
    (by decide) (by intro i; exact Or.inr (Or.inr rfl)) (by decide)
    (by decide)
  exact ⟨by decide, by decide, by decide, by decide, h.2.2⟩

end CoopThreads
